import Mathlib

/-!
# Binary buddy allocator (`src/lab.c`): shallow embedding

The C functions `btok`, `buddy_calc`, `buddy_init`, `buddy_malloc` and
`buddy_free` are translated statement by statement.

* Machine words are naturals, reduced modulo `2^64` where the C arithmetic
  can wrap; a shift `UINT64_C(1) << k` is defined only for `k < 64`.
* A pointer to a `struct avail` is either `NULL`, the address of a sentinel
  `pool->avail[k]` in the pool record, or a numeric address.  The heap maps
  every pointer to the `struct avail` stored there; a dereference of `NULL`,
  of a sentinel index above `MAX_K`, or of an address whose header does not
  lie inside the mapped region `[base, base + numbytes)` is undefined.
  Headers are modelled field-wise, so the model is exact as long as the
  headers a run touches do not partially overlap.
* Loops whose trip count the code does not bound take a step budget; running
  out of budget is a separate outcome (`Stop.spin`) from undefined behaviour
  (`Stop.undef`).
* `lab.h` is not part of the sources: its constants are the fields of
  `Consts`.
* `buddy_free` casts the user pointer to a header as it is (lab.c:119), so what
  the client stored in its memory is read as headers: the reachable states
  (`Reachable`) include the client's stores into the memory it holds.
-/

namespace Buddy

/-- Constants declared in `lab.h`, and the size of `struct avail`. -/
structure Consts where
  MIN_K : Nat
  MAX_K : Nat
  DEFAULT_K : Nat
  hdr : Nat
  BLOCK_AVAIL : Nat
  BLOCK_RESERVED : Nat
  BLOCK_UNUSED : Nat
deriving DecidableEq, Repr

/-- The errno value `ENOMEM`. -/
def ENOMEM : Nat := 12

/-- Pointers to `struct avail`. -/
inductive Ptr where
  | null : Ptr
  | sentinel (k : Nat) : Ptr
  | addr (a : Nat) : Ptr
deriving DecidableEq, Repr

/-- The record `struct avail`. -/
structure avail where
  tag : Nat
  kval : Nat
  next : Ptr
  prev : Ptr
deriving DecidableEq, Repr

/-- An all-zero `struct avail` (after `memset`, or in a fresh anonymous mapping). -/
def zeroAvail : avail := ⟨0, 0, Ptr.null, Ptr.null⟩

/-- Scalar fields of `struct buddy_pool`, the heap of headers, and `errno`. -/
structure World where
  kval_m : Nat
  numbytes : Nat
  base : Nat
  heap : Ptr → avail
  errno : Nat

/-- Ways a run can fail to produce a result. -/
inductive Stop where
  | undef : Stop
  | spin : Stop
deriving DecidableEq, Repr

/-- The word size. -/
def W64 : Nat := 2 ^ 64

/-- The shift `UINT64_C(1) << k`. -/
def shl1 (k : Nat) : Except Stop Nat :=
  if k < 64 then Except.ok (2 ^ k) else Except.error Stop.undef

/-- Cast of a machine word to a pointer. -/
def Ptr.ofNat (a : Nat) : Ptr :=
  if a = 0 then Ptr.null else Ptr.addr a

/-- Cast of a block pointer to `uintptr_t`; sentinel addresses are not modelled numerically. -/
def Ptr.toNat : Ptr → Except Stop Nat
  | Ptr.null => Except.ok 0
  | Ptr.sentinel _ => Except.error Stop.undef
  | Ptr.addr a => Except.ok a

/-- Whether a header at the pointer lies in the pool record (a sentinel of index
at most `MAX_K`) or inside the region of `numbytes` bytes mapped at `base`. -/
def inRegion (c : Consts) (base numbytes : Nat) : Ptr → Bool
  | Ptr.null => false
  | Ptr.sentinel k => decide (k ≤ c.MAX_K)
  | Ptr.addr a => decide (base ≤ a) && decide (a + c.hdr ≤ base + numbytes)

/-- Whether a header may be accessed through the pointer. -/
def valid (c : Consts) (w : World) (p : Ptr) : Bool :=
  inRegion c w.base w.numbytes p

/-- Read of the header `*p`. -/
def load (c : Consts) (w : World) (p : Ptr) : Except Stop avail :=
  if valid c w p then Except.ok (w.heap p) else Except.error Stop.undef

/-- The heap with the header at `p` replaced. -/
def upd (h : Ptr → avail) (p : Ptr) (x : avail) : Ptr → avail :=
  fun q => if q = p then x else h q

/-- Write of the header `*p`. -/
def store (c : Consts) (w : World) (p : Ptr) (h : avail) : Except Stop World :=
  if valid c w p then Except.ok { w with heap := upd w.heap p h }
  else Except.error Stop.undef

/-- The assignment `p->tag = v`. -/
def setTag (c : Consts) (w : World) (p : Ptr) (v : Nat) : Except Stop World :=
  store c w p { w.heap p with tag := v }

/-- The assignment `p->kval = v`. -/
def setKval (c : Consts) (w : World) (p : Ptr) (v : Nat) : Except Stop World :=
  store c w p { w.heap p with kval := v }

/-- The assignment `p->next = v`. -/
def setNext (c : Consts) (w : World) (p : Ptr) (v : Ptr) : Except Stop World :=
  store c w p { w.heap p with next := v }

/-- The assignment `p->prev = v`. -/
def setPrev (c : Consts) (w : World) (p : Ptr) (v : Ptr) : Except Stop World :=
  store c w p { w.heap p with prev := v }

/-- The loop of `btok`, started at `k`; the budget counts iterations. -/
def btokLoop : Nat → Nat → Nat → Except Stop Nat
  | 0, _, _ => Except.error Stop.spin
  | fuel + 1, k, bytes =>
    match shl1 k with
    | Except.error e => Except.error e
    | Except.ok p => if p < bytes then btokLoop fuel (k + 1) bytes else Except.ok k

/-- The function `btok` (lab.c:32-40). The shift becomes undefined at `k = 64`,
so 65 iterations always decide the run. -/
def btok (bytes : Nat) : Except Stop Nat :=
  btokLoop 65 0 bytes

/-- The function `buddy_calc` (lab.c:42-51). The flag `pool` says whether the pool
pointer is non-null. In `buddyBlock ^ UINT64_C(1) << buddy->kval` the shift binds
tighter than the exclusive or. -/
def buddy_calc (c : Consts) (pool : Bool) (w : World) (buddy : Ptr) : Except Stop Ptr :=
  if pool = false ∨ buddy = Ptr.null then Except.ok Ptr.null else do
    let a ← buddy.toNat
    let buddyBlock := (a + W64 - w.base) % W64
    let hb ← load c w buddy
    let s ← shl1 hb.kval
    let buddyBlock2 := buddyBlock ^^^ s
    Except.ok (Ptr.ofNat ((w.base + buddyBlock2) % W64))

/-- The sentinel loop of `buddy_init` (lab.c:209-214): `n` iterations from index `i`. -/
def initLoop (c : Consts) : Nat → Nat → World → Except Stop World
  | 0, _, w => Except.ok w
  | n + 1, i, w => do
    let w1 ← setPrev c w (Ptr.sentinel i) (Ptr.sentinel i)
    let w2 ← setNext c w1 (Ptr.sentinel i) (Ptr.sentinel i)
    let w3 ← setKval c w2 (Ptr.sentinel i) i
    let w4 ← setTag c w3 (Ptr.sentinel i) c.BLOCK_UNUSED
    initLoop c n (i + 1) w4

/-- The function `buddy_init` (lab.c:175-222). The address `base` is what `mmap`
returned (the mapping is assumed to succeed); `errno` is the value in force. -/
def buddy_init (c : Consts) (base : Nat) (errno : Nat) (size : Nat) : Except Stop World := do
  let k0 ← if size = 0 then Except.ok c.DEFAULT_K else btok size
  let k1 := if k0 < c.MIN_K then c.MIN_K else k0
  let kval := if k1 > c.MAX_K then c.MAX_K - 1 else k1
  let numbytes ← shl1 kval
  let w0 : World :=
    { kval_m := kval, numbytes := numbytes, base := base,
      heap := fun _ => zeroAvail, errno := errno }
  let w1 ← initLoop c (kval + 1) 0 w0
  let w2 ← setPrev c w1 (Ptr.sentinel kval) (Ptr.ofNat base)
  let w3 ← setNext c w2 (Ptr.sentinel kval) (Ptr.ofNat base)
  let s ← load c w3 (Ptr.sentinel kval)
  let m := s.next
  let w4 ← setTag c w3 m c.BLOCK_AVAIL
  let w5 ← setKval c w4 m kval
  let w6 ← setPrev c w5 m (Ptr.sentinel kval)
  setNext c w6 m (Ptr.sentinel kval)

/-- The search loop of `buddy_malloc` (lab.c:75-80): `n` iterations from index `k`;
the result is `availBlock`. -/
def findBlock (c : Consts) (w : World) : Nat → Nat → Except Stop Ptr
  | 0, _ => Except.ok Ptr.null
  | n + 1, k => do
    let s ← load c w (Ptr.sentinel k)
    if s.next ≠ Ptr.sentinel k then Except.ok s.next else findBlock c w n (k + 1)

/-- The two unlinking assignments `b->prev->next = b->next; b->next->prev = b->prev`
(lab.c:89-90 and 138-139). -/
def unlink (c : Consts) (w : World) (b : Ptr) : Except Stop World := do
  let hb ← load c w b
  let w1 ← setNext c w hb.prev hb.next
  let hb1 ← load c w1 b
  setPrev c w1 hb1.next hb1.prev

/-- Pointer plus a byte count, as `(struct avail *)((uintptr_t)p + n)`. -/
def Ptr.add (p : Ptr) (n : Nat) : Except Stop Ptr := do
  let a ← p.toNat
  Except.ok (Ptr.ofNat ((a + n) % W64))

/-- One pass through the body of the split loop (lab.c:94-104). -/
def splitBody (c : Consts) (w : World) (b : Ptr) : Except Stop World := do
  let hb ← load c w b
  let split_size ← shl1 (hb.kval - 1)
  let buddyBlock ← b.add split_size
  let w1 ← setTag c w buddyBlock c.BLOCK_AVAIL
  let hb1 ← load c w1 b
  let w2 ← setKval c w1 buddyBlock (hb1.kval - 1)
  let bb2 ← load c w2 buddyBlock
  let s2 ← load c w2 (Ptr.sentinel bb2.kval)
  let w3 ← setNext c w2 buddyBlock s2.next
  let bb3 ← load c w3 buddyBlock
  let w4 ← setPrev c w3 buddyBlock (Ptr.sentinel bb3.kval)
  let bb4 ← load c w4 buddyBlock
  let w5 ← setNext c w4 (Ptr.sentinel bb4.kval) buddyBlock
  let bb5 ← load c w5 buddyBlock
  setPrev c w5 bb5.next buddyBlock

/-- The split loop `while (availBlock->kval > kval)` (lab.c:93-105); the budget
counts evaluations of the loop condition. -/
def splitLoop (c : Consts) : Nat → World → Ptr → Nat → Except Stop World
  | 0, _, _, _ => Except.error Stop.spin
  | fuel + 1, w, b, kval => do
    let hb ← load c w b
    if hb.kval > kval then
      let w1 ← splitBody c w b
      splitLoop c fuel w1 b kval
    else Except.ok w

/-- The function `buddy_malloc` (lab.c:53-112). The flag `pool` says whether the
pool pointer is non-null; the result is the returned pointer and the new state. -/
def buddy_malloc (c : Consts) (fuel : Nat) (pool : Bool) (w : World) (size : Nat) :
    Except Stop (Ptr × World) :=
  if size = 0 ∨ pool = false then Except.ok (Ptr.null, w) else do
    let kval0 ← btok ((size + c.hdr) % W64)
    if kval0 > w.kval_m then Except.ok (Ptr.null, { w with errno := ENOMEM }) else do
      let kval1 := if kval0 < c.MIN_K then c.MIN_K else kval0
      let kval := if kval1 > c.MAX_K then c.MAX_K - 1 else kval1
      let availBlock ← findBlock c w (c.MAX_K + 1 - kval) kval
      if availBlock = Ptr.null then Except.ok (Ptr.null, { w with errno := ENOMEM }) else do
        let w1 ← unlink c w availBlock
        let w2 ← splitLoop c fuel w1 availBlock kval
        let w3 ← setTag c w2 availBlock c.BLOCK_RESERVED
        let r ← availBlock.add c.hdr
        Except.ok (r, w3)

/-- The buddy address as `buddy_free` computes it (lab.c:124-129) for the block at
address `a` with order `k`: `a + 2^k` when the offset from `base` is a multiple of
`2^(k+1)`, else `a - 2^k`. -/
def freeBuddy (w : World) (a k : Nat) : Except Stop Ptr := do
  let m ← shl1 (k + 1)
  if ((a + W64 - w.base) % W64) % m = 0 then do
    let p ← shl1 k
    Except.ok (Ptr.ofNat ((a + p) % W64))
  else do
    let p ← shl1 k
    Except.ok (Ptr.ofNat ((a + W64 - p) % W64))

/-- The branch S3 of `buddy_free` (lab.c:149-155): tag the block available, store
its order and splice it at the head of `avail[k]`. -/
def insertFree (c : Consts) (w : World) (block : Ptr) (k : Nat) : Except Stop World := do
  let w1 ← setTag c w block c.BLOCK_AVAIL
  let w2 ← setKval c w1 block k
  let first := Ptr.sentinel k
  let f2 ← load c w2 first
  let w3 ← setNext c w2 block f2.next
  let w4 ← setPrev c w3 block first
  let f4 ← load c w4 first
  let w5 ← setPrev c w4 f4.next block
  setNext c w5 first block

/-- The function `buddy_free` (lab.c:116-159), called with the pointer `ptr`; the
budget counts calls (the function calls itself after a coalescing step). The
pointer is cast to a block header as it is (lab.c:119). -/
def buddy_free (c : Consts) : Nat → World → Ptr → Except Stop World
  | 0, _, _ => Except.error Stop.spin
  | fuel + 1, w, ptr => do
    let block := ptr
    let hb ← load c w block
    let k := hb.kval
    let a ← block.toNat
    let buddy ← freeBuddy w a k
    let hbud ← load c w buddy
    if hbud.tag = c.BLOCK_AVAIL ∧ hbud.kval = k then do
      let w2 ← unlink c w buddy
      let b ← buddy.toNat
      buddy_free c fuel w2 (if b < a then buddy else block)
    else insertFree c w block k

/-- Constants of the spec's concrete scenarios: `MIN_K = 5` and a 32-byte header;
the spec fixes no other value, so `MAX_K`, `DEFAULT_K` and the tag codes are sample
values. -/
def scen : Consts :=
  { MIN_K := 5, MAX_K := 48, DEFAULT_K := 30, hdr := 32,
    BLOCK_AVAIL := 1, BLOCK_RESERVED := 0, BLOCK_UNUSED := 3 }

/-- Assumptions on the constants of `lab.h`: the orders fit a 64-bit shift, the
order range is not empty, a block of the smallest order holds a header, and a
header is at least two bytes. -/
def Consts.WF (c : Consts) : Prop :=
  c.MIN_K < c.MAX_K ∧ c.MAX_K ≤ 63 ∧ c.hdr ≤ 2 ^ c.MIN_K ∧ 2 ≤ c.hdr

instance (c : Consts) : Decidable c.WF := by
  unfold Consts.WF
  exact inferInstance

/-- The two clamping statements `if (kval < MIN_K) kval = MIN_K;
if (kval > MAX_K) kval = MAX_K - 1;` shared by `buddy_init` (lab.c:183-186) and
`buddy_malloc` (lab.c:70-71), as a function of the order before them. -/
def clampOrder (c : Consts) (k0 : Nat) : Nat :=
  if (if k0 < c.MIN_K then c.MIN_K else k0) > c.MAX_K then c.MAX_K - 1
  else (if k0 < c.MIN_K then c.MIN_K else k0)

/-- The header of an empty list of order `i`, as `buddy_init` writes it. -/
def emptySentinel (c : Consts) (i : Nat) : avail :=
  ⟨c.BLOCK_UNUSED, i, Ptr.sentinel i, Ptr.sentinel i⟩

/-- The heap right after `buddy_init` for a pool of order `kval` mapped at `base`. -/
def freshHeap (c : Consts) (kval base : Nat) : Ptr → avail
  | Ptr.null => zeroAvail
  | Ptr.sentinel j =>
    if j < kval then emptySentinel c j
    else if j = kval then ⟨c.BLOCK_UNUSED, kval, Ptr.addr base, Ptr.addr base⟩
    else zeroAvail
  | Ptr.addr a =>
    if a = base then ⟨c.BLOCK_AVAIL, kval, Ptr.sentinel kval, Ptr.sentinel kval⟩
    else zeroAvail

/-- The state right after `buddy_init` for a pool of order `kval` mapped at `base`. -/
def freshWorld (c : Consts) (kval base errno : Nat) : World :=
  { kval_m := kval, numbytes := 2 ^ kval, base := base,
    heap := freshHeap c kval base, errno := errno }

/-- What `mmap` guarantees about the address it returns for `len` bytes. -/
def Mapped (base len : Nat) : Prop :=
  0 < base ∧ base + len < W64

instance (base len : Nat) : Decidable (Mapped base len) := by
  unfold Mapped
  exact inferInstance

/-- Closed form of the heap after the two unlinking assignments on `b`. -/
def unlinkHeap (heap : Ptr → avail) (b : Ptr) : Ptr → avail :=
  let h1 := upd heap (heap b).prev { heap (heap b).prev with next := (heap b).next }
  upd h1 (h1 b).next { h1 (h1 b).next with prev := (h1 b).prev }

/-- Closed form of the heap after `buddy_malloc` takes the block at address `a`
without splitting: the block is unlinked and tagged reserved. -/
def takeHeap (c : Consts) (heap : Ptr → avail) (a : Nat) : Ptr → avail :=
  upd (unlinkHeap heap (Ptr.addr a)) (Ptr.addr a)
    { unlinkHeap heap (Ptr.addr a) (Ptr.addr a) with tag := c.BLOCK_RESERVED }

/-- The heap of a fresh pool of order `kval` after its only block was taken:
every list up to `kval` is empty and the block at `base` is reserved. -/
def takenHeap (c : Consts) (kval base : Nat) : Ptr → avail
  | Ptr.null => zeroAvail
  | Ptr.sentinel j => if j ≤ kval then emptySentinel c j else zeroAvail
  | Ptr.addr a =>
    if a = base then ⟨c.BLOCK_RESERVED, kval, Ptr.sentinel kval, Ptr.sentinel kval⟩
    else zeroAvail

/-- Closed form of the heap after branch S3 of `buddy_free` inserts the block at
address `a` with order `k` at the head of `avail[k]`. -/
def insertHeap (c : Consts) (heap : Ptr → avail) (a k : Nat) : Ptr → avail :=
  let h1 := upd heap (Ptr.addr a) { heap (Ptr.addr a) with tag := c.BLOCK_AVAIL }
  let h2 := upd h1 (Ptr.addr a) { h1 (Ptr.addr a) with kval := k }
  let h3 := upd h2 (Ptr.addr a) { h2 (Ptr.addr a) with next := (h2 (Ptr.sentinel k)).next }
  let h4 := upd h3 (Ptr.addr a) { h3 (Ptr.addr a) with prev := Ptr.sentinel k }
  let h5 := upd h4 (h4 (Ptr.sentinel k)).next
    { h4 (h4 (Ptr.sentinel k)).next with prev := Ptr.addr a }
  upd h5 (Ptr.sentinel k) { h5 (Ptr.sentinel k) with next := Ptr.addr a }

/-- The heap of a pool of order `kval` after its only block was taken and the
returned pointer `base + sizeof(header)` was passed to `buddy_free`: the free
took the first payload bytes for a header of order 0 and put that address on
`avail[0]`. -/
def freedHeap (c : Consts) (kval base : Nat) : Ptr → avail :=
  insertHeap c (takenHeap c kval base) (base + c.hdr) 0

/-- A store by the client into memory that `buddy_malloc` handed out: the bytes at
`p` now read, as a header, as `x`. -/
def clientStore (c : Consts) (w : World) (p : Ptr) (x : avail) : Except Stop World :=
  store c w p x

/-- The scalar fields of the pool record and `errno` are the same in both states. -/
def sameRecord (w w' : World) : Prop :=
  w'.kval_m = w.kval_m ∧ w'.numbytes = w.numbytes ∧ w'.base = w.base ∧ w'.errno = w.errno

/-- A pool of order 7 mapped at 4096 (constants `scen`) split into its two halves
of order 6: the block at `freeAt` is the only element of `avail[6]`, the block at
`resAt` is reserved. -/
def halfPool (freeAt resAt : Nat) : World :=
  { kval_m := 7, numbytes := 128, base := 4096, errno := 0,
    heap := fun p =>
      match p with
      | Ptr.null => zeroAvail
      | Ptr.sentinel j =>
        if j = 6 then ⟨scen.BLOCK_UNUSED, 6, Ptr.addr freeAt, Ptr.addr freeAt⟩
        else if j ≤ 7 then emptySentinel scen j else zeroAvail
      | Ptr.addr a =>
        if a = freeAt then ⟨scen.BLOCK_AVAIL, 6, Ptr.sentinel 6, Ptr.sentinel 6⟩
        else if a = resAt then ⟨scen.BLOCK_RESERVED, 6, Ptr.null, Ptr.null⟩
        else zeroAvail }

/-- A pool of order 7 mapped at 4096 (constants `scen`), split into two reserved
blocks of order 6 at offsets 0 and 64, with every free list empty. The user's
payload of the first block starts at 4128 and holds `payload`, read as a header. -/
def splitPool (payload : avail) : World :=
  { kval_m := 7, numbytes := 128, base := 4096, errno := 0,
    heap := fun p =>
      match p with
      | Ptr.null => zeroAvail
      | Ptr.sentinel j => if j ≤ 7 then emptySentinel scen j else zeroAvail
      | Ptr.addr a =>
        if a = 4096 then ⟨scen.BLOCK_RESERVED, 6, Ptr.null, Ptr.null⟩
        else if a = 4160 then ⟨scen.BLOCK_RESERVED, 6, Ptr.null, Ptr.null⟩
        else if a = 4128 then payload
        else zeroAvail }

/-- Starting at `cur`, whose predecessor is `pv`, the `next` links visit the
blocks at the addresses `L` in order and then reach the sentinel `s`; each
`prev` link points back at the element before. -/
def listFrom (heap : Ptr → avail) (s : Ptr) : Ptr → Ptr → List Nat → Prop
  | pv, cur, [] => cur = s ∧ (heap s).prev = pv
  | pv, cur, a :: L =>
    cur = Ptr.addr a ∧ (heap (Ptr.addr a)).prev = pv ∧
      listFrom heap s (Ptr.addr a) (heap (Ptr.addr a)).next L

instance (heap : Ptr → avail) (s : Ptr) (L : List Nat) :
    ∀ pv cur, Decidable (listFrom heap s pv cur L) := by
  induction L with
  | nil => intro pv cur; unfold listFrom; exact inferInstance
  | cons a L ih =>
    intro pv cur
    unfold listFrom
    have := ih (Ptr.addr a) (heap (Ptr.addr a)).next
    exact inferInstance

/-- The list `avail[k]` is a well-formed circular doubly-linked list whose
elements, from the head, are the blocks at the addresses `L`. -/
def isFreeList (heap : Ptr → avail) (k : Nat) (L : List Nat) : Prop :=
  listFrom heap (Ptr.sentinel k) (Ptr.sentinel k) (heap (Ptr.sentinel k)).next L ∧ L.Nodup

instance (heap : Ptr → avail) (k : Nat) (L : List Nat) : Decidable (isFreeList heap k L) := by
  unfold isFreeList
  exact inferInstance

/-- What the free-list invariant says of one element of `avail[k]`: its header is
inside the region, tagged `AVAIL`, of order `k`, at an offset that is a multiple
of `2^k`. -/
def freeBlockOk (c : Consts) (w : World) (k a : Nat) : Prop :=
  valid c w (Ptr.addr a) = true ∧ (w.heap (Ptr.addr a)).tag = c.BLOCK_AVAIL ∧
    (w.heap (Ptr.addr a)).kval = k ∧ (a - w.base) % 2 ^ k = 0

instance (c : Consts) (w : World) (k a : Nat) : Decidable (freeBlockOk c w k a) := by
  unfold freeBlockOk
  exact inferInstance

/-- The free-list invariant (spec 3.2 item 4 and section 8), with the contents of
the lists given by `Ls`: for every `k ≤ kval_m`, `avail[k]` is a well-formed
circular list of the blocks `Ls k`, each `AVAIL`, of order `k` and aligned. -/
def FreeListInv (c : Consts) (w : World) (Ls : Nat → List Nat) : Prop :=
  ∀ k, k ≤ w.kval_m → isFreeList w.heap k (Ls k) ∧ ∀ a ∈ Ls k, freeBlockOk c w k a

instance (c : Consts) (w : World) (Ls : Nat → List Nat) : Decidable (FreeListInv c w Ls) := by
  unfold FreeListInv
  exact inferInstance

/-- A pool of order 8 mapped at 4096 (constants `scen`) cut into four blocks of
order 6: those at offsets 0 and 128 are free and form `avail[6]` in that order,
those at offsets 64 and 192 are reserved. -/
def twoFreePool : World :=
  { kval_m := 8, numbytes := 256, base := 4096, errno := 0,
    heap := fun p =>
      match p with
      | Ptr.null => zeroAvail
      | Ptr.sentinel j =>
        if j = 6 then ⟨scen.BLOCK_UNUSED, 6, Ptr.addr 4096, Ptr.addr 4224⟩
        else if j ≤ 8 then emptySentinel scen j else zeroAvail
      | Ptr.addr a =>
        if a = 4096 then ⟨scen.BLOCK_AVAIL, 6, Ptr.addr 4224, Ptr.sentinel 6⟩
        else if a = 4224 then ⟨scen.BLOCK_AVAIL, 6, Ptr.sentinel 6, Ptr.addr 4096⟩
        else if a = 4160 then ⟨scen.BLOCK_RESERVED, 6, Ptr.null, Ptr.null⟩
        else if a = 4288 then ⟨scen.BLOCK_RESERVED, 6, Ptr.null, Ptr.null⟩
        else zeroAvail }

/-- The contents of the free lists of `twoFreePool`. -/
def twoFreeLists (k : Nat) : List Nat :=
  if k = 6 then [4096, 4224] else []

/-! ## Basic facts about the memory operations -/

@[simp] theorem shl1_of_lt {k : Nat} (h : k < 64) : shl1 k = Except.ok (2 ^ k) := by
  simp [shl1, h]

theorem ofNat_of_pos {a : Nat} (h : 0 < a) : Ptr.ofNat a = Ptr.addr a := by
  simp [Ptr.ofNat, Nat.pos_iff_ne_zero.mp h]

theorem load_ok {c : Consts} {w : World} {p : Ptr} (h : valid c w p = true) :
    load c w p = Except.ok (w.heap p) := by
  simp [load, h]

theorem store_ok {c : Consts} {w : World} {p : Ptr} (h : valid c w p = true) (x : avail) :
    store c w p x = Except.ok { w with heap := upd w.heap p x } := by
  simp [store, h]

@[simp] theorem upd_apply (h : Ptr → avail) (p q : Ptr) (x : avail) :
    upd h p x q = if q = p then x else h q := rfl

/-! ## The size encoder -/

theorem btokLoop_spec (bytes : Nat) (hb : bytes ≤ 2 ^ 63) :
    ∀ (fuel k : Nat), k + fuel = 65 → (∀ j, j < k → 2 ^ j < bytes) →
      btokLoop fuel k bytes = Except.ok (Nat.clog 2 bytes) := by
  intro fuel
  induction fuel with
  | zero =>
    intro k hk hlt
    exfalso
    have h63 : 2 ^ 63 < bytes := hlt 63 (by omega)
    omega
  | succ n ih =>
    intro k hk hlt
    have hk63 : k ≤ 63 := by
      by_contra hcon
      have h63 : 2 ^ 63 < bytes := hlt 63 (by omega)
      omega
    unfold btokLoop
    rw [shl1_of_lt (by omega)]
    by_cases hp : 2 ^ k < bytes
    · simp only [hp, if_true]
      apply ih (k + 1) (by omega)
      intro j hj
      rcases Nat.lt_succ_iff_lt_or_eq.mp hj with h | h
      · exact hlt j h
      · rw [h]; exact hp
    · simp only [hp, if_false]
      congr 1
      apply le_antisymm
      · by_contra hcon
        have hlt2 : Nat.clog 2 bytes < k := Nat.lt_of_not_le hcon
        have := hlt _ hlt2
        have h2 := (Nat.pow_lt_iff_lt_clog (by decide : 1 < 2)).mp this
        omega
      · exact (Nat.le_pow_iff_clog_le (by decide : 1 < 2)).mp (Nat.le_of_not_lt hp)

/-- For inputs up to `2^63`, `btok` returns the ceiling of the binary logarithm. -/
theorem btok_eq (bytes : Nat) (hb : bytes ≤ 2 ^ 63) :
    btok bytes = Except.ok (Nat.clog 2 bytes) :=
  btokLoop_spec bytes hb 65 0 (by omega) (by intro j hj; omega)

theorem clog_le_63 {bytes : Nat} (hb : bytes ≤ 2 ^ 63) : Nat.clog 2 bytes ≤ 63 :=
  (Nat.le_pow_iff_clog_le (by decide : 1 < 2)).mp hb

/-! ## `buddy_init` in closed form -/

/-- Heap after `n` iterations of the sentinel loop started at index `i`. -/
theorem initLoop_eq (c : Consts) (n : Nat) : ∀ (i : Nat) (w : World), i + n ≤ c.MAX_K + 1 →
    initLoop c n i w = Except.ok { w with heap := fun p =>
      match p with
      | Ptr.sentinel j => if i ≤ j ∧ j < i + n then emptySentinel c j else w.heap p
      | _ => w.heap p } := by
  induction n with
  | zero =>
    intro i w _
    simp only [initLoop]
    congr 1
    cases w
    simp only [World.mk.injEq, true_and, and_true]
    funext p
    cases p <;> simp
    rw [if_neg (by omega)]
  | succ n ih =>
    intro i w h
    have hv : ∀ w1 : World, valid c w1 (Ptr.sentinel i) = true := by
      intro w1; simp [valid, inRegion]; omega
    simp only [initLoop, setPrev, setNext, setKval, setTag, store, upd, hv, if_true, bind,
      Except.bind]
    rw [ih (i + 1) _ (by omega)]
    congr 1
    cases w
    simp only [World.mk.injEq, true_and, and_true]
    funext p
    cases p with
    | null => simp
    | addr a => simp
    | sentinel j =>
      simp only [Ptr.sentinel.injEq, if_true, emptySentinel]
      by_cases h1 : j = i
      · subst h1
        simp
      · by_cases h2 : i + 1 ≤ j ∧ j < i + 1 + n
        · have h3 : i ≤ j ∧ j < i + (n + 1) := by omega
          simp [h2, h3]
        · have h3 : ¬ (i ≤ j ∧ j < i + (n + 1)) := by omega
          simp [h2, h3, h1]

theorem clampOrder_le (c : Consts) (hc : c.WF) (k0 : Nat) : clampOrder c k0 ≤ c.MAX_K := by
  obtain ⟨h1, h2, h3, h4⟩ := hc
  unfold clampOrder
  split_ifs <;> omega

theorem clampOrder_ge (c : Consts) (hc : c.WF) (k0 : Nat) : c.MIN_K ≤ clampOrder c k0 := by
  obtain ⟨h1, h2, h3, h4⟩ := hc
  unfold clampOrder
  split_ifs <;> omega

/-- The part of `buddy_init` after the order is known yields the fresh state. -/
theorem init_tail_eq (c : Consts) (hc : c.WF) (base errno kval : Nat) (hb : 0 < base)
    (hk1 : c.MIN_K ≤ kval) (hk2 : kval ≤ c.MAX_K) :
    (do
      let numbytes ← shl1 kval
      let w0 : World :=
        { kval_m := kval, numbytes := numbytes, base := base,
          heap := fun _ => zeroAvail, errno := errno }
      let w1 ← initLoop c (kval + 1) 0 w0
      let w2 ← setPrev c w1 (Ptr.sentinel kval) (Ptr.ofNat base)
      let w3 ← setNext c w2 (Ptr.sentinel kval) (Ptr.ofNat base)
      let s ← load c w3 (Ptr.sentinel kval)
      let m := s.next
      let w4 ← setTag c w3 m c.BLOCK_AVAIL
      let w5 ← setKval c w4 m kval
      let w6 ← setPrev c w5 m (Ptr.sentinel kval)
      setNext c w6 m (Ptr.sentinel kval)) = Except.ok (freshWorld c kval base errno) := by
  obtain ⟨h1, h2, h3, h4⟩ := hc
  have hpow : c.hdr ≤ 2 ^ kval := le_trans h3 (Nat.pow_le_pow_right (by decide) hk1)
  rw [shl1_of_lt (by omega)]
  simp only [bind, Except.bind]
  rw [initLoop_eq c (kval + 1) 0 _ (by omega)]
  have hv : ∀ w1 : World, valid c w1 (Ptr.sentinel kval) = true := by
    intro w1; simp [valid, inRegion]; omega
  have hof : Ptr.ofNat base = Ptr.addr base := ofNat_of_pos hb
  simp [setPrev, setNext, setKval, setTag, store, upd, load, valid, inRegion, bind,
    Except.bind, hpow, hof, hk2, freshWorld]
  funext p
  cases p with
  | null => simp [freshHeap]
  | addr a =>
    by_cases ha : a = base
    · subst ha; simp [freshHeap]
    · simp [freshHeap, ha]
  | sentinel j =>
    simp only [freshHeap, emptySentinel]
    by_cases h5 : j = kval
    · subst h5; simp
    · by_cases h6 : j < kval
      · simp [h5, h6]; omega
      · simp [h5, h6]; omega

/-- Closed form of `buddy_init` for a non-zero size up to `2^63`. -/
theorem buddy_init_eq (c : Consts) (hc : c.WF) (base errno size : Nat) (hb : 0 < base)
    (hs0 : size ≠ 0) (hs : size ≤ 2 ^ 63) :
    buddy_init c base errno size =
      Except.ok (freshWorld c (clampOrder c (Nat.clog 2 size)) base errno) := by
  unfold buddy_init
  rw [if_neg hs0, btok_eq size hs]
  exact init_tail_eq c hc base errno _ hb (clampOrder_ge c hc _) (clampOrder_le c hc _)

/-- Closed form of `buddy_init` for size zero. -/
theorem buddy_init_zero (c : Consts) (hc : c.WF) (base errno : Nat) (hb : 0 < base) :
    buddy_init c base errno 0 =
      Except.ok (freshWorld c (clampOrder c c.DEFAULT_K) base errno) := by
  unfold buddy_init
  rw [if_pos rfl]
  exact init_tail_eq c hc base errno _ hb (clampOrder_ge c hc _) (clampOrder_le c hc _)

theorem btokLoop_undef (bytes : Nat) (hb : 2 ^ 63 < bytes) :
    ∀ (fuel k : Nat), k + fuel = 65 → k ≤ 64 →
      btokLoop fuel k bytes = Except.error Stop.undef := by
  intro fuel
  induction fuel with
  | zero => intro k hk hk2; omega
  | succ n ih =>
    intro k hk hk2
    unfold btokLoop
    by_cases h64 : k < 64
    · rw [shl1_of_lt h64]
      have hp : 2 ^ k < bytes :=
        lt_of_le_of_lt (Nat.pow_le_pow_right (by decide) (by omega : k ≤ 63)) hb
      simp only [hp, if_true]
      exact ih (k + 1) (by omega) (by omega)
    · simp [shl1, h64]

/-- Above `2^63` the loop of `btok` reaches the undefined shift by 64. -/
theorem btok_undef (bytes : Nat) (hb : 2 ^ 63 < bytes) :
    btok bytes = Except.error Stop.undef :=
  btokLoop_undef bytes hb 65 0 (by omega) (by omega)

/-- Every state `buddy_init` returns is the fresh state of some order in
`[MIN_K, MAX_K]`. -/
theorem buddy_init_fresh (c : Consts) (hc : c.WF) (base errno size : Nat) (hb : 0 < base)
    (w : World) (h : buddy_init c base errno size = Except.ok w) :
    ∃ K, c.MIN_K ≤ K ∧ K ≤ c.MAX_K ∧ w = freshWorld c K base errno := by
  by_cases hs0 : size = 0
  · subst hs0
    rw [buddy_init_zero c hc base errno hb] at h
    exact ⟨_, clampOrder_ge c hc _, clampOrder_le c hc _, (Except.ok.inj h).symm⟩
  · by_cases hs : size ≤ 2 ^ 63
    · rw [buddy_init_eq c hc base errno size hb hs0 hs] at h
      exact ⟨_, clampOrder_ge c hc _, clampOrder_le c hc _, (Except.ok.inj h).symm⟩
    · exfalso
      unfold buddy_init at h
      rw [if_neg hs0, btok_undef size (by omega)] at h
      simp [bind, Except.bind] at h

/-- C9 (boundary case): with `MAX_K = 48` a request of `2^48` bytes has
`btok = MAX_K`; `buddy_init` then stores `kval_m = MAX_K = 48` and maps `2^48`
bytes, whereas clamping into `[MIN_K, MAX_K - 1]` would give 47. -/
theorem C9_init_order_reaches_MAX_K :
    ∃ w, buddy_init scen 4096 0 (2 ^ 48) = Except.ok w ∧
      btok (2 ^ 48) = Except.ok scen.MAX_K ∧
      w.kval_m = scen.MAX_K ∧ w.numbytes = 2 ^ scen.MAX_K ∧
      w.kval_m ≠ min (max scen.MAX_K scen.MIN_K) (scen.MAX_K - 1) := by
  have hclog : Nat.clog 2 (2 ^ 48) = 48 := Nat.clog_pow 2 48 (by decide)
  refine ⟨freshWorld scen 48 4096 0, ?_, ?_, rfl, rfl, by decide⟩
  · rw [buddy_init_eq scen (by decide) 4096 0 (2 ^ 48) (by decide) (by norm_num)
      (Nat.pow_le_pow_right (by decide) (by decide)), hclog]
    rfl
  · rw [btok_eq _ (Nat.pow_le_pow_right (by decide) (by decide)), hclog]
    rfl

/-- C10: for every requested size up to `2^63` (where `btok` is defined) and every
mapped base address, `buddy_init` returns a state in which each sentinel
`avail[i]`, `i < kval_m`, is an empty self-loop with `kval = i` and tag `UNUSED`,
the sentinel `avail[kval_m]` (tag `UNUSED`, `kval = kval_m`) links to the single
block at `base` in both directions, and that block has tag `AVAIL`,
`kval = kval_m` and both links back to the sentinel. -/
theorem C10_init_free_lists (c : Consts) (hc : c.WF) (base errno size : Nat)
    (hb : 0 < base) (hs : size ≤ 2 ^ 63) :
    ∃ w, buddy_init c base errno size = Except.ok w ∧ w.base = base ∧
      (∀ i, i < w.kval_m → w.heap (Ptr.sentinel i) =
        ⟨c.BLOCK_UNUSED, i, Ptr.sentinel i, Ptr.sentinel i⟩) ∧
      w.heap (Ptr.sentinel w.kval_m) =
        ⟨c.BLOCK_UNUSED, w.kval_m, Ptr.addr base, Ptr.addr base⟩ ∧
      w.heap (Ptr.addr base) =
        ⟨c.BLOCK_AVAIL, w.kval_m, Ptr.sentinel w.kval_m, Ptr.sentinel w.kval_m⟩ := by
  have key : ∀ K, (freshWorld c K base errno).base = base ∧
      (∀ i, i < (freshWorld c K base errno).kval_m →
        (freshWorld c K base errno).heap (Ptr.sentinel i) =
          ⟨c.BLOCK_UNUSED, i, Ptr.sentinel i, Ptr.sentinel i⟩) ∧
      (freshWorld c K base errno).heap (Ptr.sentinel (freshWorld c K base errno).kval_m) =
        ⟨c.BLOCK_UNUSED, (freshWorld c K base errno).kval_m, Ptr.addr base, Ptr.addr base⟩ ∧
      (freshWorld c K base errno).heap (Ptr.addr base) =
        ⟨c.BLOCK_AVAIL, (freshWorld c K base errno).kval_m,
          Ptr.sentinel (freshWorld c K base errno).kval_m,
          Ptr.sentinel (freshWorld c K base errno).kval_m⟩ := by
    intro K
    refine ⟨rfl, ?_, ?_, ?_⟩
    · intro i hi
      simp only [freshWorld] at hi
      simp [freshWorld, freshHeap, hi, emptySentinel]
    · simp [freshWorld, freshHeap]
    · simp [freshWorld, freshHeap]
  by_cases hs0 : size = 0
  · subst hs0
    exact ⟨_, buddy_init_zero c hc base errno hb, key _⟩
  · exact ⟨_, buddy_init_eq c hc base errno size hb hs0 hs, key _⟩

/-- Instance of C10: the spec's constants, a 1024-byte pool mapped at 4096. -/
theorem C10_init_free_lists_witness :
    ∃ w, buddy_init scen 4096 0 1024 = Except.ok w ∧ w.base = 4096 ∧
      (∀ i, i < w.kval_m → w.heap (Ptr.sentinel i) =
        ⟨scen.BLOCK_UNUSED, i, Ptr.sentinel i, Ptr.sentinel i⟩) ∧
      w.heap (Ptr.sentinel w.kval_m) =
        ⟨scen.BLOCK_UNUSED, w.kval_m, Ptr.addr 4096, Ptr.addr 4096⟩ ∧
      w.heap (Ptr.addr 4096) =
        ⟨scen.BLOCK_AVAIL, w.kval_m, Ptr.sentinel w.kval_m, Ptr.sentinel w.kval_m⟩ :=
  C10_init_free_lists scen (by decide) 4096 0 1024 (by decide) (by decide)

/-- C5: for a present pool in any state and any `n > 0` whose order
`btok(n + sizeof(header))` (sum taken in 64-bit arithmetic) exceeds `kval_m`,
`buddy_malloc` returns `NULL`, sets `errno` to `ENOMEM`, and changes nothing else:
the pool record and every header are as before. -/
theorem C5_oversize_request (c : Consts) (fuel : Nat) (w : World) (n k : Nat)
    (hn : 0 < n) (hk : btok ((n + c.hdr) % W64) = Except.ok k) (hgt : w.kval_m < k) :
    buddy_malloc c fuel true w n = Except.ok (Ptr.null, { w with errno := ENOMEM }) := by
  unfold buddy_malloc
  have hn0 : n ≠ 0 := Nat.pos_iff_ne_zero.mp hn
  simp [hn0, hk, hgt, bind, Except.bind]

/-- Instance of C5: `kval_m = 10`, `n = 2^10 + 1`. -/
theorem C5_oversize_request_witness :
    buddy_malloc scen 0 true (freshWorld scen 10 4096 0) (2 ^ 10 + 1) =
      Except.ok (Ptr.null, { freshWorld scen 10 4096 0 with errno := ENOMEM }) :=
  C5_oversize_request scen 0 (freshWorld scen 10 4096 0) (2 ^ 10 + 1) 11 (by decide)
    (by rfl) (by decide)

/-! ## The search loop of `buddy_malloc` -/

/-- The search passes empty lists and stops at the first non-empty one. -/
theorem findBlock_skip (c : Consts) (w : World) (j : Nat) (hj : j ≤ c.MAX_K)
    (hne : (w.heap (Ptr.sentinel j)).next ≠ Ptr.sentinel j) :
    ∀ (n k : Nat), k ≤ j → j < k + n →
      (∀ i, k ≤ i → i < j → (w.heap (Ptr.sentinel i)).next = Ptr.sentinel i) →
      findBlock c w n k = Except.ok (w.heap (Ptr.sentinel j)).next := by
  intro n
  induction n with
  | zero => intro k h1 h2 _; omega
  | succ n ih =>
    intro k h1 h2 hemp
    have hv : valid c w (Ptr.sentinel k) = true := by
      simp [valid, inRegion]; omega
    simp only [findBlock, load, hv, if_true, bind, Except.bind]
    by_cases hkj : k = j
    · subst hkj
      simp [hne]
    · have hlt : k < j := by omega
      simp only [hemp k (le_refl k) hlt, ne_eq, not_true_eq_false, if_false]
      exact ih (k + 1) (by omega) (by omega) (fun i hi1 hi2 => hemp i (by omega) hi2)

theorem valid_heap_irrel (c : Consts) (w : World) (h : Ptr → avail) (p : Ptr) :
    valid c { w with heap := h } p = valid c w p := rfl

theorem upd_next_kval (h : Ptr → avail) (p q v : Ptr) :
    (upd h p { h p with next := v } q).kval = (h q).kval := by
  rw [upd_apply]
  by_cases hq : q = p
  · rw [if_pos hq, hq]
  · rw [if_neg hq]

theorem upd_prev_kval (h : Ptr → avail) (p q v : Ptr) :
    (upd h p { h p with prev := v } q).kval = (h q).kval := by
  rw [upd_apply]
  by_cases hq : q = p
  · rw [if_pos hq, hq]
  · rw [if_neg hq]

theorem upd_next_tag (h : Ptr → avail) (p q v : Ptr) :
    (upd h p { h p with next := v } q).tag = (h q).tag := by
  rw [upd_apply]
  by_cases hq : q = p
  · rw [if_pos hq, hq]
  · rw [if_neg hq]

theorem upd_prev_tag (h : Ptr → avail) (p q v : Ptr) :
    (upd h p { h p with prev := v } q).tag = (h q).tag := by
  rw [upd_apply]
  by_cases hq : q = p
  · rw [if_pos hq, hq]
  · rw [if_neg hq]

/-- Unlinking changes no `kval` field. -/
theorem unlinkHeap_kval (heap : Ptr → avail) (b q : Ptr) :
    (unlinkHeap heap b q).kval = (heap q).kval := by
  unfold unlinkHeap
  simp only []
  rw [upd_prev_kval, upd_next_kval]

/-- Unlinking changes no `tag` field. -/
theorem unlinkHeap_tag (heap : Ptr → avail) (b q : Ptr) :
    (unlinkHeap heap b q).tag = (heap q).tag := by
  unfold unlinkHeap
  simp only []
  rw [upd_prev_tag, upd_next_tag]

/-- Closed form of the unlinking assignments when every header they touch is
accessible. -/
theorem unlink_eq (c : Consts) (w : World) (b : Ptr) (hvb : valid c w b = true)
    (hvp : valid c w (w.heap b).prev = true)
    (hvn : valid c w
      ((upd w.heap (w.heap b).prev
        { w.heap (w.heap b).prev with next := (w.heap b).next }) b).next = true) :
    unlink c w b = Except.ok { w with heap := unlinkHeap w.heap b } := by
  simp only [unlink, load, hvb, if_true, bind, Except.bind, setNext, store, hvp,
    valid_heap_irrel, setPrev, hvn]
  rfl

/-- The split loop ends at once when the block's order does not exceed the request. -/
theorem splitLoop_done (c : Consts) (fuel : Nat) (w : World) (b : Ptr) (kval : Nat)
    (hvb : valid c w b = true) (hk : (w.heap b).kval ≤ kval) :
    splitLoop c (fuel + 1) w b kval = Except.ok w := by
  simp [splitLoop, load, hvb, bind, Except.bind, not_lt.mpr hk]

/-- When the head of `avail[kval]` has order at most the requested order `kval`,
`buddy_malloc` unlinks it, tags it reserved and returns the address past its
header. -/
theorem malloc_take (c : Consts) (fuel : Nat) (w : World) (n kval0 a : Nat) (hn : 0 < n)
    (hk : btok ((n + c.hdr) % W64) = Except.ok kval0) (hle : kval0 ≤ w.kval_m)
    (hmax : clampOrder c kval0 ≤ c.MAX_K)
    (hhead : (w.heap (Ptr.sentinel (clampOrder c kval0))).next = Ptr.addr a)
    (hva : valid c w (Ptr.addr a) = true)
    (hvp : valid c w (w.heap (Ptr.addr a)).prev = true)
    (hpne : (w.heap (Ptr.addr a)).prev ≠ Ptr.addr a)
    (hvn : valid c w (w.heap (Ptr.addr a)).next = true)
    (hkval : (w.heap (Ptr.addr a)).kval ≤ clampOrder c kval0)
    (hwrap : a + c.hdr < W64) (hh : 0 < c.hdr) :
    buddy_malloc c (fuel + 1) true w n =
      Except.ok (Ptr.addr (a + c.hdr), { w with heap := takeHeap c w.heap a }) := by
  have hn0 : n ≠ 0 := Nat.pos_iff_ne_zero.mp hn
  have hfind : findBlock c w (c.MAX_K + 1 - clampOrder c kval0) (clampOrder c kval0) =
      Except.ok (Ptr.addr a) := by
    rw [← hhead]
    exact findBlock_skip c w _ hmax (by rw [hhead]; simp) _ _ (le_refl _) (by omega)
      (fun i h1 h2 => by omega)
  have hpos : a + c.hdr ≠ 0 := by omega
  have hcl : (if (if kval0 < c.MIN_K then c.MIN_K else kval0) > c.MAX_K then c.MAX_K - 1
      else (if kval0 < c.MIN_K then c.MIN_K else kval0)) = clampOrder c kval0 := rfl
  have hh1 : (upd w.heap (w.heap (Ptr.addr a)).prev
      { w.heap (w.heap (Ptr.addr a)).prev with next := (w.heap (Ptr.addr a)).next })
      (Ptr.addr a) = w.heap (Ptr.addr a) := by
    simp [upd, hpne.symm]
  have hunl := unlink_eq c w (Ptr.addr a) hva hvp (by rw [hh1]; exact hvn)
  have hkv2 : (unlinkHeap w.heap (Ptr.addr a) (Ptr.addr a)).kval ≤ clampOrder c kval0 := by
    rw [unlinkHeap_kval]
    exact hkval
  unfold buddy_malloc
  simp only [hn0, false_or, Bool.true_eq_false, if_false, hk, bind, Except.bind,
    not_lt.mpr hle, gt_iff_lt]
  simp only [gt_iff_lt] at hcl
  simp only [hcl, hfind, hunl]
  rw [splitLoop_done c fuel _ _ _ (by rw [valid_heap_irrel]; exact hva) hkv2]
  simp [setTag, store, valid_heap_irrel, hva, Ptr.add, Ptr.toNat, bind, Except.bind,
    Nat.mod_eq_of_lt hwrap, Ptr.ofNat, hpos, takeHeap]

/-! ## `buddy_malloc` on a fresh pool, request of the pool's order -/

theorem clampOrder_id (c : Consts) (K : Nat) (h1 : c.MIN_K ≤ K) (h2 : K ≤ c.MAX_K) :
    clampOrder c K = K := by
  unfold clampOrder
  split_ifs <;> omega

theorem clampOrder_self_le (c : Consts) (k : Nat) (h1 : c.MIN_K ≤ c.MAX_K) (h2 : k ≤ c.MAX_K) :
    k ≤ clampOrder c k := by
  unfold clampOrder
  split_ifs <;> omega

theorem takeHeap_fresh (c : Consts) (K base : Nat) :
    takeHeap c (freshHeap c K base) base = takenHeap c K base := by
  funext q
  cases q with
  | null => simp [takeHeap, unlinkHeap, freshHeap, takenHeap]
  | addr a =>
    by_cases ha : a = base
    · subst ha; simp [takeHeap, unlinkHeap, freshHeap, takenHeap]
    · simp [takeHeap, unlinkHeap, freshHeap, takenHeap, ha]
  | sentinel j =>
    by_cases h5 : j = K
    · subst h5; simp [takeHeap, unlinkHeap, freshHeap, takenHeap, emptySentinel]
    · by_cases h6 : j < K
      · have h7 : j ≤ K := by omega
        simp [takeHeap, unlinkHeap, freshHeap, takenHeap, h5, h6, h7]
      · have h7 : ¬ j ≤ K := by omega
        simp [takeHeap, unlinkHeap, freshHeap, takenHeap, h5, h6, h7]

/-- On a fresh pool of order `K`, a request whose clamped order is `K` returns
`base + sizeof(header)` and leaves the pool with no free block. -/
theorem malloc_fresh_full (c : Consts) (hc : c.WF) (fuel K base errno n kval0 : Nat)
    (hK1 : c.MIN_K ≤ K) (hK2 : K ≤ c.MAX_K) (hmap : Mapped base (2 ^ K)) (hn : 0 < n)
    (hk : btok ((n + c.hdr) % W64) = Except.ok kval0) (hle : kval0 ≤ K)
    (hreq : clampOrder c kval0 = K) :
    buddy_malloc c (fuel + 1) true (freshWorld c K base errno) n =
      Except.ok (Ptr.addr (base + c.hdr),
        { freshWorld c K base errno with heap := takenHeap c K base }) := by
  obtain ⟨h1, h2, h3, h4⟩ := hc
  obtain ⟨hm1, hm2⟩ := hmap
  have hpow : c.hdr ≤ 2 ^ K := le_trans h3 (Nat.pow_le_pow_right (by decide) hK1)
  have hmt := malloc_take c fuel (freshWorld c K base errno) n kval0 base hn hk hle
    (by rw [hreq]; exact hK2)
    (by rw [hreq]; simp [freshWorld, freshHeap])
    (by simp [valid, inRegion, freshWorld, hpow])
    (by simp [valid, inRegion, freshWorld, freshHeap]; exact hK2)
    (by simp [freshWorld, freshHeap])
    (by simp [valid, inRegion, freshWorld, freshHeap]; exact hK2)
    (by rw [hreq]; simp [freshWorld, freshHeap])
    (by omega) (by omega)
  rw [hmt]
  simp only [freshWorld, takeHeap_fresh]

theorem btok_pow (K : Nat) (hK : K ≤ 63) : btok (2 ^ K) = Except.ok K := by
  rw [btok_eq _ (Nat.pow_le_pow_right (by decide) hK), Nat.clog_pow 2 K (by decide)]

theorem pow_lt_W64 (K : Nat) (hK : K ≤ 63) : 2 ^ K < W64 :=
  Nat.pow_lt_pow_right (by decide) (by omega)

/-- The spec's scenario pool: 1024 bytes mapped at 4096. -/
theorem scen_init_1024 :
    buddy_init scen 4096 0 1024 = Except.ok (freshWorld scen 10 4096 0) := by
  have hclog : Nat.clog 2 1024 = 10 := Nat.clog_pow 2 10 (by decide)
  rw [buddy_init_eq scen (by decide) 4096 0 1024 (by decide) (by decide) (by decide), hclog]
  rfl

/-- The smallest scenario pool: a request of 1 byte gives the order `MIN_K = 5`. -/
theorem scen_init_1 :
    buddy_init scen 4096 0 1 = Except.ok (freshWorld scen 5 4096 0) := by
  have hclog : Nat.clog 2 1 = 0 := Nat.clog_one_right 2
  rw [buddy_init_eq scen (by decide) 4096 0 1 (by decide) (by decide) (by decide), hclog]
  rfl

/-- C4 (as stated, fails): with `MIN_K = 5` and a 32-byte header, `buddy_init(pool, 1)`
gives a pool of order `kval_m = 5`, so the byte count `2^kval_m - sizeof(header)` is
0: `buddy_malloc` returns `NULL` through the guard at lab.c:57 and the block at
`base` stays `AVAIL` on `avail[5]`. -/
theorem C4_zero_byte_request_returns_null :
    ∃ w, buddy_init scen 4096 0 1 = Except.ok w ∧ w.kval_m = 5 ∧
      2 ^ w.kval_m - scen.hdr = 0 ∧
      (∀ fuel, buddy_malloc scen fuel true w (2 ^ w.kval_m - scen.hdr) =
        Except.ok (Ptr.null, w)) ∧
      (w.heap (Ptr.addr 4096)).tag = scen.BLOCK_AVAIL ∧
      (w.heap (Ptr.sentinel 5)).next = Ptr.addr 4096 := by
  refine ⟨_, scen_init_1, rfl, by decide, fun fuel => ?_, rfl, rfl⟩
  have h0 : 2 ^ (freshWorld scen 5 4096 0).kval_m - scen.hdr = 0 := by decide
  rw [h0]
  simp [buddy_malloc]

/-- C4 (amended): on a pool freshly produced by `buddy_init` (order `kval_m`), when
the header is smaller than the pool, `buddy_malloc(pool, 2^kval_m - sizeof(header))`
returns `base + sizeof(header)`, the block at `base` is then `RESERVED` with
`kval = kval_m` and every list `avail[0..kval_m]` is an empty self-loop; when the
header fills the pool (`sizeof(header) = 2^kval_m`) the byte count is 0 and the
call returns `NULL` and leaves the pool as it is. -/
theorem C4_full_pool_allocation (c : Consts) (hc : c.WF) (base errno size fuel : Nat)
    (w : World) (hinit : buddy_init c base errno size = Except.ok w)
    (hmap : Mapped base w.numbytes) :
    (c.hdr < 2 ^ w.kval_m →
      ∃ w', buddy_malloc c (fuel + 1) true w (2 ^ w.kval_m - c.hdr) =
          Except.ok (Ptr.addr (base + c.hdr), w') ∧
        (w'.heap (Ptr.addr base)).tag = c.BLOCK_RESERVED ∧
        (w'.heap (Ptr.addr base)).kval = w.kval_m ∧
        ∀ k, k ≤ w.kval_m → (w'.heap (Ptr.sentinel k)).next = Ptr.sentinel k ∧
          (w'.heap (Ptr.sentinel k)).prev = Ptr.sentinel k) ∧
      (c.hdr = 2 ^ w.kval_m →
        buddy_malloc c (fuel + 1) true w (2 ^ w.kval_m - c.hdr) = Except.ok (Ptr.null, w)) := by
  obtain ⟨K, hK1, hK2, rfl⟩ := buddy_init_fresh c hc base errno size hmap.1 w hinit
  have hc' := hc
  obtain ⟨h1, h2, h3, h4⟩ := hc'
  simp only [freshWorld] at hmap ⊢
  constructor
  · intro hpos
    have hsum : (2 ^ K - c.hdr + c.hdr) % W64 = 2 ^ K := by
      rw [Nat.sub_add_cancel (le_of_lt hpos)]
      exact Nat.mod_eq_of_lt (pow_lt_W64 K (by omega))
    have hm := malloc_fresh_full c hc fuel K base errno (2 ^ K - c.hdr) K hK1 hK2 hmap
      (by omega) (by rw [hsum]; exact btok_pow K (by omega)) (le_refl K)
      (clampOrder_id c K hK1 hK2)
    simp only [freshWorld] at hm
    refine ⟨_, hm, ?_, ?_, ?_⟩
    · simp [takenHeap]
    · simp [takenHeap]
    · intro k hk
      simp [takenHeap, hk, emptySentinel]
  · intro heq
    have h0 : 2 ^ K - c.hdr = 0 := by omega
    rw [h0]
    simp [buddy_malloc]

/-- Instances of C4 (amended): the spec's scenario 1 (`kval_m = 10`, 992 bytes),
and the pool of order 5, whose header fills it. -/
theorem C4_full_pool_allocation_witness :
    (∃ w', buddy_malloc scen 1 true (freshWorld scen 10 4096 0)
          (2 ^ (freshWorld scen 10 4096 0).kval_m - scen.hdr) =
          Except.ok (Ptr.addr (4096 + scen.hdr), w') ∧
        (w'.heap (Ptr.addr 4096)).tag = scen.BLOCK_RESERVED ∧
        (w'.heap (Ptr.addr 4096)).kval = (freshWorld scen 10 4096 0).kval_m ∧
        ∀ k, k ≤ (freshWorld scen 10 4096 0).kval_m →
          (w'.heap (Ptr.sentinel k)).next = Ptr.sentinel k ∧
          (w'.heap (Ptr.sentinel k)).prev = Ptr.sentinel k) ∧
      buddy_malloc scen 1 true (freshWorld scen 5 4096 0)
          (2 ^ (freshWorld scen 5 4096 0).kval_m - scen.hdr) =
        Except.ok (Ptr.null, freshWorld scen 5 4096 0) :=
  ⟨(C4_full_pool_allocation scen (by decide) 4096 0 1024 0 (freshWorld scen 10 4096 0)
      scen_init_1024 (by decide)).1 (by decide),
    (C4_full_pool_allocation scen (by decide) 4096 0 1 0 (freshWorld scen 5 4096 0)
      scen_init_1 (by decide)).2 (by decide)⟩

/-! ## The split loop never lowers `availBlock->kval` -/

/-- One pass of the split-loop body on the block at `a` of order `K`: the buddy
header at `a + 2^(K-1)` is written and spliced into `avail[K-1]`, and the header
of the block itself, `kval` included, is left as it was. -/
theorem splitBody_keeps (c : Consts) (w : World) (a K : Nat)
    (hK : K - 1 ≤ c.MAX_K) (hK64 : K - 1 < 64)
    (hb : (w.heap (Ptr.addr a)).kval = K)
    (hva : valid c w (Ptr.addr a) = true)
    (hvb : valid c w (Ptr.addr (a + 2 ^ (K - 1))) = true)
    (hwrap : a + 2 ^ (K - 1) < W64)
    (hs : (w.heap (Ptr.sentinel (K - 1))).next = Ptr.sentinel (K - 1) ∨
      (w.heap (Ptr.sentinel (K - 1))).next = Ptr.addr (a + 2 ^ (K - 1))) :
    ∃ w', splitBody c w (Ptr.addr a) = Except.ok w' ∧
      w'.base = w.base ∧ w'.numbytes = w.numbytes ∧
      w'.heap (Ptr.addr a) = w.heap (Ptr.addr a) ∧
      (w'.heap (Ptr.sentinel (K - 1))).next = Ptr.addr (a + 2 ^ (K - 1)) := by
  have hpw : 0 < 2 ^ (K - 1) := Nat.pow_pos (by decide)
  have hne : a + 2 ^ (K - 1) ≠ 0 := by omega
  have hne2 : ¬ (a = a + 2 ^ (K - 1)) := by omega
  have hvs : ∀ w1 : World, valid c w1 (Ptr.sentinel (K - 1)) = true := by
    intro w1; simp only [valid, inRegion, decide_eq_true_eq]; exact hK
  have hva' : inRegion c w.base w.numbytes (Ptr.addr a) = true := hva
  have hvb' : inRegion c w.base w.numbytes (Ptr.addr (a + 2 ^ (K - 1))) = true := hvb
  have hvs' : inRegion c w.base w.numbytes (Ptr.sentinel (K - 1)) = true := hvs w
  rcases hs with hs | hs
  · simp [splitBody, load, store, setTag, setKval, setNext, setPrev, valid, hva', hvb', hvs',
      hb, shl1_of_lt hK64, Ptr.add, Ptr.toNat, Ptr.ofNat, Nat.mod_eq_of_lt hwrap, hne, hne2,
      bind, Except.bind, hs]
  · simp [splitBody, load, store, setTag, setKval, setNext, setPrev, valid, hva', hvb', hvs',
      hb, shl1_of_lt hK64, Ptr.add, Ptr.toNat, Ptr.ofNat, Nat.mod_eq_of_lt hwrap, hne, hne2,
      bind, Except.bind, hs]

theorem valid_of_same_region (c : Consts) (w w' : World) (p : Ptr)
    (h1 : w'.base = w.base) (h2 : w'.numbytes = w.numbytes) :
    valid c w' p = valid c w p := by
  simp only [valid, h1, h2]

/-- While the block's order exceeds the request, the split loop never ends: every
budget is exhausted. -/
theorem splitLoop_spin (c : Consts) (a K kval : Nat) (hlt : kval < K)
    (hK : K - 1 ≤ c.MAX_K) (hK64 : K - 1 < 64) (hwrap : a + 2 ^ (K - 1) < W64) :
    ∀ (fuel : Nat) (w : World), (w.heap (Ptr.addr a)).kval = K →
      valid c w (Ptr.addr a) = true → valid c w (Ptr.addr (a + 2 ^ (K - 1))) = true →
      ((w.heap (Ptr.sentinel (K - 1))).next = Ptr.sentinel (K - 1) ∨
        (w.heap (Ptr.sentinel (K - 1))).next = Ptr.addr (a + 2 ^ (K - 1))) →
      splitLoop c fuel w (Ptr.addr a) kval = Except.error Stop.spin := by
  intro fuel
  induction fuel with
  | zero => intro w _ _ _ _; rfl
  | succ n ih =>
    intro w hb hva hvb hs
    obtain ⟨w', hbody, hbase, hnum, hsame, hnext⟩ :=
      splitBody_keeps c w a K hK hK64 hb hva hvb hwrap hs
    simp only [splitLoop, load, hva, if_true, bind, Except.bind, hb, gt_iff_lt, hlt, hbody]
    exact ih w' (by rw [hsame]; exact hb)
      (by rw [valid_of_same_region c w w' _ hbase hnum]; exact hva)
      (by rw [valid_of_same_region c w w' _ hbase hnum]; exact hvb)
      (Or.inr hnext)

/-- On a fresh pool of order `K`, a request whose clamped order is below `K` finds
the block at `base`, enters the split loop and never returns. -/
theorem malloc_fresh_split_spin (c : Consts) (hc : c.WF) (K base errno n kval0 : Nat)
    (hK1 : c.MIN_K ≤ K) (hK2 : K ≤ c.MAX_K) (hmap : Mapped base (2 ^ K)) (hn : 0 < n)
    (hk : btok ((n + c.hdr) % W64) = Except.ok kval0) (hle : kval0 ≤ K)
    (hreq : clampOrder c kval0 < K) (fuel : Nat) :
    buddy_malloc c fuel true (freshWorld c K base errno) n = Except.error Stop.spin := by
  have hc' := hc
  obtain ⟨h1, h2, h3, h4⟩ := hc'
  obtain ⟨hm1, hm2⟩ := hmap
  have hge := clampOrder_ge c hc kval0
  have hKpos : 0 < K := by omega
  have hpowK : 2 ^ K = 2 ^ (K - 1) + 2 ^ (K - 1) := by
    have : K = (K - 1) + 1 := by omega
    conv_lhs => rw [this, pow_succ]
    omega
  have hpow1 : c.hdr ≤ 2 ^ (K - 1) :=
    le_trans h3 (Nat.pow_le_pow_right (by decide) (by omega))
  have hn0 : n ≠ 0 := Nat.pos_iff_ne_zero.mp hn
  have hfind : findBlock c (freshWorld c K base errno) (c.MAX_K + 1 - clampOrder c kval0)
      (clampOrder c kval0) = Except.ok (Ptr.addr base) := by
    have := findBlock_skip c (freshWorld c K base errno) K hK2
      (by simp [freshWorld, freshHeap]) (c.MAX_K + 1 - clampOrder c kval0)
      (clampOrder c kval0) (le_of_lt hreq) (by omega)
      (fun i _ hi => by simp [freshWorld, freshHeap, hi, emptySentinel])
    rw [this]
    simp [freshWorld, freshHeap]
  have hva : valid c (freshWorld c K base errno) (Ptr.addr base) = true := by
    simp only [valid, inRegion, freshWorld, le_refl, decide_True, Bool.true_and,
      decide_eq_true_eq]
    omega
  have hunl := unlink_eq c (freshWorld c K base errno) (Ptr.addr base) hva
    (by simp [valid, inRegion, freshWorld, freshHeap]; exact hK2)
    (by simp [valid, inRegion, freshWorld, freshHeap]; exact hK2)
  have hcl : (if (if kval0 < c.MIN_K then c.MIN_K else kval0) > c.MAX_K then c.MAX_K - 1
      else (if kval0 < c.MIN_K then c.MIN_K else kval0)) = clampOrder c kval0 := rfl
  have hspin := splitLoop_spin c base K (clampOrder c kval0) hreq (by omega) (by omega)
    (by omega) fuel
    { freshWorld c K base errno with
      heap := unlinkHeap (freshWorld c K base errno).heap (Ptr.addr base) }
    (by rw [unlinkHeap_kval]; simp [freshWorld, freshHeap])
    (by rw [valid_heap_irrel]; exact hva)
    (by
      rw [valid_heap_irrel]
      simp only [valid, inRegion, freshWorld, decide_eq_true_eq, Bool.and_eq_true]
      omega)
    (Or.inl (by
      have hne : K - 1 ≠ K := by omega
      have hlt' : K - 1 < K := by omega
      simp [unlinkHeap, freshWorld, freshHeap, hne, hlt', emptySentinel]))
  unfold buddy_malloc
  simp only [hn0, false_or, Bool.true_eq_false, if_false, hk, bind, Except.bind,
    gt_iff_lt]
  simp only [gt_iff_lt] at hcl
  have hle' : ¬ (freshWorld c K base errno).kval_m < kval0 := by
    simp only [freshWorld]; omega
  simp only [hle', if_false, hcl, hfind, hunl, hspin]
  simp

/-- C2 (as the code behaves): on a pool freshly produced by `buddy_init`, for every
`n > 0` whose request order `max(btok(n + sizeof(header)), MIN_K)` is strictly
below `kval_m`, `buddy_malloc` does not return: every step budget is exhausted in
the split loop. -/
theorem C2_split_request_never_returns (c : Consts) (hc : c.WF) (base errno size : Nat)
    (w : World) (hinit : buddy_init c base errno size = Except.ok w)
    (hmap : Mapped base w.numbytes) (n kval0 : Nat) (hn : 0 < n)
    (hk : btok ((n + c.hdr) % W64) = Except.ok kval0)
    (hreq : max kval0 c.MIN_K < w.kval_m) (fuel : Nat) :
    buddy_malloc c fuel true w n = Except.error Stop.spin := by
  obtain ⟨K, hK1, hK2, rfl⟩ := buddy_init_fresh c hc base errno size hmap.1 w hinit
  simp only [freshWorld] at hreq hmap
  have hcl : clampOrder c kval0 = max kval0 c.MIN_K := by
    have h1 := hc.1
    have h2 := le_max_left kval0 c.MIN_K
    simp only [clampOrder, max_def] at *
    split_ifs at * <;> omega
  exact malloc_fresh_split_spin c hc K base errno n kval0 hK1 hK2 hmap hn hk
    (by have := le_max_left kval0 c.MIN_K; omega) (by rw [hcl]; exact hreq) fuel

/-- Instance of C2 at the claim's own input: `kval_m = MIN_K + 5 = 10`, `n = 1`. -/
theorem C2_split_request_never_returns_witness :
    buddy_malloc scen 1000 true (freshWorld scen 10 4096 0) 1 = Except.error Stop.spin :=
  C2_split_request_never_returns scen (by decide) 4096 0 1024 (freshWorld scen 10 4096 0)
    scen_init_1024 (by decide) 1 6 (by decide) rfl (by decide) 1000

/-! ## Free lists under heap updates -/

/-- A list is unaffected by heap changes that keep its elements and the `prev`
field of its sentinel. -/
theorem listFrom_congr (h h' : Ptr → avail) (s : Ptr) (hs : (h' s).prev = (h s).prev) :
    ∀ (L : List Nat) (pv cur : Ptr), (∀ x ∈ L, h' (Ptr.addr x) = h (Ptr.addr x)) →
      listFrom h s pv cur L → listFrom h' s pv cur L := by
  intro L
  induction L with
  | nil =>
    intro pv cur _ hl
    simp only [listFrom] at hl ⊢
    exact ⟨hl.1, by rw [hs]; exact hl.2⟩
  | cons a L ih =>
    intro pv cur hsame hl
    simp only [listFrom] at hl ⊢
    have ha := hsame a (List.mem_cons_self a L)
    refine ⟨hl.1, by rw [ha]; exact hl.2.1, ?_⟩
    rw [ha]
    exact ih _ _ (fun x hx => hsame x (List.mem_cons_of_mem a hx)) hl.2.2

/-- The heap after a take differs from the heap before only at the block, at its
predecessor and at its successor. -/
theorem takeHeap_frame (c : Consts) (heap : Ptr → avail) (a : Nat) (q : Ptr)
    (hpne : (heap (Ptr.addr a)).prev ≠ Ptr.addr a)
    (h1 : q ≠ Ptr.addr a) (h2 : q ≠ (heap (Ptr.addr a)).prev)
    (h3 : q ≠ (heap (Ptr.addr a)).next) :
    takeHeap c heap a q = heap q := by
  simp [takeHeap, unlinkHeap, h1, h2, h3, hpne.symm]

theorem takeHeap_kval (c : Consts) (heap : Ptr → avail) (a : Nat) (q : Ptr) :
    (takeHeap c heap a q).kval = (heap q).kval := by
  unfold takeHeap
  rw [upd_apply]
  by_cases hq : q = Ptr.addr a
  · rw [if_pos hq, hq]
    exact unlinkHeap_kval heap _ _
  · rw [if_neg hq]
    exact unlinkHeap_kval heap _ _

theorem takeHeap_tag (c : Consts) (heap : Ptr → avail) (a : Nat) (q : Ptr)
    (hq : q ≠ Ptr.addr a) : (takeHeap c heap a q).tag = (heap q).tag := by
  unfold takeHeap
  rw [upd_apply, if_neg hq]
  exact unlinkHeap_tag heap _ _

theorem takeHeap_tag_self (c : Consts) (heap : Ptr → avail) (a : Nat) :
    (takeHeap c heap a (Ptr.addr a)).tag = c.BLOCK_RESERVED := by
  simp [takeHeap]

/-! ## `buddy_free` without coalescing -/

/-- Closed form of branch S3 when the headers it touches are accessible. -/
theorem insertFree_eq (c : Consts) (w : World) (a k : Nat)
    (hva : valid c w (Ptr.addr a) = true) (hk : k ≤ c.MAX_K)
    (hvn : valid c w (w.heap (Ptr.sentinel k)).next = true) :
    insertFree c w (Ptr.addr a) k = Except.ok { w with heap := insertHeap c w.heap a k } := by
  have hvs : inRegion c w.base w.numbytes (Ptr.sentinel k) = true := by
    simp only [inRegion, decide_eq_true_eq]; exact hk
  have hva' : inRegion c w.base w.numbytes (Ptr.addr a) = true := hva
  have hvn' : inRegion c w.base w.numbytes (w.heap (Ptr.sentinel k)).next = true := hvn
  simp [insertFree, load, store, setTag, setKval, setNext, setPrev, valid, hva', hvs, hvn',
    bind, Except.bind, insertHeap]

/-- When the header found at the computed buddy address is not an available block
of the same order, `buddy_free` takes branch S3 at once. -/
theorem free_no_coalesce (c : Consts) (fuel : Nat) (w : World) (a k : Nat) (bud : Ptr)
    (hva : valid c w (Ptr.addr a) = true) (hk : (w.heap (Ptr.addr a)).kval = k)
    (hbud : freeBuddy w a k = Except.ok bud) (hvb : valid c w bud = true)
    (hno : ¬ ((w.heap bud).tag = c.BLOCK_AVAIL ∧ (w.heap bud).kval = k)) :
    buddy_free c (fuel + 1) w (Ptr.addr a) = insertFree c w (Ptr.addr a) k := by
  unfold buddy_free
  simp only [load, hva, if_true, bind, Except.bind, Ptr.toNat, hk, hbud, hvb, hno, if_false]

/-- C8 (failing input): in a pool of order 7 whose two order-6 halves are both
reserved, freeing the user pointer `base + 32` of the lower block, whose payload
holds bytes that read as `kval = 5`, treats the payload as the block header
(`buddy_free` casts the pointer without subtracting the header size): the real
header at `base` stays `RESERVED`, `avail[6]` stays empty, and the payload address
itself is spliced into `avail[5]` as an available block of order 5. -/
theorem C8_free_reads_payload_as_header (t : Nat) (nx pv : Ptr) (fuel : Nat) :
    ∃ w', buddy_free scen (fuel + 1) (splitPool ⟨t, 5, nx, pv⟩) (Ptr.addr (4096 + scen.hdr)) =
        Except.ok w' ∧
      w'.heap (Ptr.addr 4096) = ⟨scen.BLOCK_RESERVED, 6, Ptr.null, Ptr.null⟩ ∧
      (w'.heap (Ptr.sentinel 6)).next = Ptr.sentinel 6 ∧
      (w'.heap (Ptr.sentinel 5)).next = Ptr.addr 4128 ∧
      w'.heap (Ptr.addr 4128) = ⟨scen.BLOCK_AVAIL, 5, Ptr.sentinel 5, Ptr.sentinel 5⟩ := by
  have e1 : 4096 + scen.hdr = 4128 := rfl
  rw [e1]
  have hva : valid scen (splitPool ⟨t, 5, nx, pv⟩) (Ptr.addr 4128) = true := rfl
  have hmod : ¬ ((4128 + W64 - 4096) % W64 % 2 ^ (5 + 1) = 0) := by decide
  have hsub : (4128 + W64 - 2 ^ 5) % W64 = 4096 := by decide
  have hbud : freeBuddy (splitPool ⟨t, 5, nx, pv⟩) 4128 5 = Except.ok (Ptr.addr 4096) := by
    have hbase : (splitPool ⟨t, 5, nx, pv⟩).base = 4096 := rfl
    unfold freeBuddy
    rw [shl1_of_lt (by decide), shl1_of_lt (by decide), hbase]
    simp only [bind, Except.bind, hmod, if_false, hsub]
    rfl
  have hfree := free_no_coalesce scen fuel (splitPool ⟨t, 5, nx, pv⟩) 4128 5 (Ptr.addr 4096)
    hva rfl hbud rfl (by simp [splitPool, scen])
  have hins := insertFree_eq scen (splitPool ⟨t, 5, nx, pv⟩) 4128 5 hva (by decide) rfl
  rw [hfree, hins]
  refine ⟨_, rfl, ?_, ?_, ?_, ?_⟩ <;>
    simp [insertHeap, splitPool, emptySentinel, scen]

/-- C7: in a pool state satisfying the free-list invariant (lists `Ls`), for
`n > 0` whose request order `k_req = max(btok(n + sizeof(header)), MIN_K)` is at
most `kval_m` and whose list `avail[k_req]` is `a :: rest`, `buddy_malloc` returns
`a + sizeof(header)`, tags the block at `a` `RESERVED`, leaves `avail[k_req]`
holding exactly `rest` in the same order, and leaves every other list as it was
(same sentinel header, same element headers); the invariant holds afterwards. -/
theorem C7_take_head_of_exact_list (c : Consts) (hc : c.WF) (w : World)
    (Ls : Nat → List Nat) (hpool : w.kval_m ≤ c.MAX_K) (hmap : w.base + w.numbytes < W64)
    (hinv : FreeListInv c w Ls) (n kval0 : Nat) (hn : 0 < n)
    (hk : btok ((n + c.hdr) % W64) = Except.ok kval0)
    (hreq : max kval0 c.MIN_K ≤ w.kval_m) (a : Nat) (rest : List Nat)
    (hne : Ls (max kval0 c.MIN_K) = a :: rest) (fuel : Nat) :
    ∃ w', buddy_malloc c (fuel + 1) true w n = Except.ok (Ptr.addr (a + c.hdr), w') ∧
      (w'.heap (Ptr.addr a)).tag = c.BLOCK_RESERVED ∧
      FreeListInv c w' (fun k => if k = max kval0 c.MIN_K then rest else Ls k) ∧
      ∀ k, k ≤ w.kval_m → k ≠ max kval0 c.MIN_K →
        w'.heap (Ptr.sentinel k) = w.heap (Ptr.sentinel k) ∧
        ∀ x ∈ Ls k, w'.heap (Ptr.addr x) = w.heap (Ptr.addr x) := by
  have hc' := hc
  obtain ⟨hc1, hc2, hc3, hc4⟩ := hc'
  have hle0 : kval0 ≤ max kval0 c.MIN_K := le_max_left _ _
  have hcl : clampOrder c kval0 = max kval0 c.MIN_K := by
    have h2 := le_max_left kval0 c.MIN_K
    simp only [clampOrder, max_def] at *
    split_ifs at * <;> omega
  generalize hkr : max kval0 c.MIN_K = kr at *
  obtain ⟨⟨hlist, hnd⟩, hok⟩ := hinv kr hreq
  rw [hne] at hlist hnd hok
  simp only [listFrom] at hlist
  obtain ⟨hhead, hprev, hrest⟩ := hlist
  obtain ⟨hva, htag, hkv, hal⟩ := hok a (List.mem_cons_self a rest)
  have hanot : a ∉ rest := (List.nodup_cons.mp hnd).1
  have hndr : rest.Nodup := (List.nodup_cons.mp hnd).2
  -- the successor of the head is the sentinel or the second element
  have hnx : (w.heap (Ptr.addr a)).next = Ptr.sentinel kr ∨
      ∃ b ∈ rest, (w.heap (Ptr.addr a)).next = Ptr.addr b := by
    cases rest with
    | nil => simp only [listFrom] at hrest; exact Or.inl hrest.1
    | cons b r =>
      simp only [listFrom] at hrest
      exact Or.inr ⟨b, List.mem_cons_self b r, hrest.1⟩
  have hvs : valid c w (Ptr.sentinel kr) = true := by
    simp only [valid, inRegion, decide_eq_true_eq]; omega
  have hvn : valid c w (w.heap (Ptr.addr a)).next = true := by
    rcases hnx with h | ⟨b, hb, h⟩
    · rw [h]; exact hvs
    · rw [h]; exact (hok b (List.mem_cons_of_mem a hb)).1
  have hwrap : a + c.hdr < W64 := by
    simp only [valid, inRegion, Bool.and_eq_true, decide_eq_true_eq] at hva
    omega
  have hpne : (w.heap (Ptr.addr a)).prev ≠ Ptr.addr a := by rw [hprev]; simp
  have hm := malloc_take c fuel w n kval0 a hn hk (by omega) (by rw [hcl]; omega)
    (by rw [hcl]; exact hhead) hva (by rw [hprev]; exact hvs) hpne hvn
    (by rw [hcl, hkv]) hwrap (by omega)
  -- headers of blocks other than `a` keep tag, order and validity
  have hkeep : ∀ k x, x ≠ a → freeBlockOk c w k x →
      freeBlockOk c { w with heap := takeHeap c w.heap a } k x := by
    intro k x hxa hx
    obtain ⟨h1, h2, h3, h4⟩ := hx
    refine ⟨by rw [valid_heap_irrel]; exact h1, ?_, ?_, h4⟩
    · show (takeHeap c w.heap a (Ptr.addr x)).tag = _
      rw [takeHeap_tag c w.heap a _ (by simp [hxa])]; exact h2
    · show (takeHeap c w.heap a (Ptr.addr x)).kval = _
      rw [takeHeap_kval]; exact h3
  -- lists of another order are untouched
  have hother : ∀ k, k ≤ w.kval_m → k ≠ kr →
      takeHeap c w.heap a (Ptr.sentinel k) = w.heap (Ptr.sentinel k) ∧
      ∀ x ∈ Ls k, takeHeap c w.heap a (Ptr.addr x) = w.heap (Ptr.addr x) := by
    intro k hk1 hk2
    constructor
    · apply takeHeap_frame c w.heap a _ hpne (by simp) (by rw [hprev]; simp [hk2])
      rcases hnx with h | ⟨b, _, h⟩ <;> rw [h] <;> simp [hk2]
    · intro x hx
      have hxk := ((hinv k hk1).2 x hx).2.2.1
      have hxa : x ≠ a := by
        intro h; rw [h, hkv] at hxk; exact hk2 hxk.symm
      apply takeHeap_frame c w.heap a _ hpne (by simp [hxa]) (by rw [hprev]; simp)
      rcases hnx with h | ⟨b, hb, h⟩ <;> rw [h]
      · simp
      · have hbk := (hok b (List.mem_cons_of_mem a hb)).2.2.1
        have hxb : x ≠ b := by
          intro h'; rw [h', hbk] at hxk; exact hk2 hxk.symm
        simp [hxb]
  refine ⟨_, hm, takeHeap_tag_self c w.heap a, ?_, hother⟩
  intro k hk1
  by_cases hkk : k = kr
  · subst hkk
    simp only [if_true]
    refine ⟨⟨?_, hndr⟩, fun x hx =>
      hkeep k x (fun h => hanot (h ▸ hx)) (hok x (List.mem_cons_of_mem a hx))⟩
    show listFrom (takeHeap c w.heap a) _ _ (takeHeap c w.heap a (Ptr.sentinel k)).next rest
    cases rest with
    | nil =>
      simp only [listFrom] at hrest ⊢
      simp [takeHeap, unlinkHeap, hprev, hrest.1]
    | cons b r =>
      simp only [listFrom] at hrest ⊢
      obtain ⟨hnb, hbp, hbr⟩ := hrest
      have hba : b ≠ a := fun h => hanot (h ▸ List.mem_cons_self b r)
      have hbnr : b ∉ r := (List.nodup_cons.mp hndr).1
      have hsent : takeHeap c w.heap a (Ptr.sentinel k) =
          { w.heap (Ptr.sentinel k) with next := Ptr.addr b } := by
        simp [takeHeap, unlinkHeap, hprev, hnb]
      have hbb : takeHeap c w.heap a (Ptr.addr b) =
          { w.heap (Ptr.addr b) with prev := Ptr.sentinel k } := by
        simp [takeHeap, unlinkHeap, hprev, hnb, hba]
      rw [hsent, hbb]
      refine ⟨rfl, rfl, ?_⟩
      apply listFrom_congr w.heap _ _ (by rw [hsent]) _ _ _ _ hbr
      intro x hx
      have hxa : x ≠ a := fun h => hanot (h ▸ List.mem_cons_of_mem b hx)
      have hxb : x ≠ b := fun h => hbnr (h ▸ hx)
      exact takeHeap_frame c w.heap a _ hpne (by simp [hxa]) (by rw [hprev]; simp)
        (by rw [hnb]; simp [hxb])
  · simp only [hkk, if_false]
    obtain ⟨hs, hx⟩ := hother k hk1 hkk
    obtain ⟨⟨hl, hn2⟩, hok2⟩ := hinv k hk1
    refine ⟨⟨?_, hn2⟩, fun x hx' => hkeep k x ?_ (hok2 x hx')⟩
    · show listFrom (takeHeap c w.heap a) _ _ (takeHeap c w.heap a (Ptr.sentinel k)).next _
      rw [hs]
      exact listFrom_congr w.heap _ _ (by rw [hs]) _ _ _ hx hl
    · intro h
      have := (hok2 x hx').2.2.1
      rw [h, hkv] at this
      exact hkk this.symm

/-- Instance of C7: a pool of order 8 whose list `avail[6]` holds the blocks at
4096 and 4224; a 1-byte request (order 6) takes the head, 4096. -/
theorem C7_take_head_of_exact_list_witness :
    ∃ w', buddy_malloc scen 1 true twoFreePool 1 = Except.ok (Ptr.addr (4096 + scen.hdr), w') ∧
      (w'.heap (Ptr.addr 4096)).tag = scen.BLOCK_RESERVED ∧
      FreeListInv scen w' (fun k => if k = max 6 scen.MIN_K then [4224] else twoFreeLists k) ∧
      ∀ k, k ≤ twoFreePool.kval_m → k ≠ max 6 scen.MIN_K →
        w'.heap (Ptr.sentinel k) = twoFreePool.heap (Ptr.sentinel k) ∧
        ∀ x ∈ twoFreeLists k, w'.heap (Ptr.addr x) = twoFreePool.heap (Ptr.addr x) :=
  C7_take_head_of_exact_list scen (by decide) twoFreePool twoFreeLists (by decide)
    (by decide) (by decide) 1 6 (by decide) rfl (by decide) 4096 [4224] rfl 0

/-! ## `buddy_malloc` when the search finds nothing -/

theorem insertHeap_frame (c : Consts) (heap : Ptr → avail) (a k : Nat) (q : Ptr)
    (h1 : q ≠ Ptr.addr a) (h2 : q ≠ Ptr.sentinel k)
    (h3 : q ≠ (heap (Ptr.sentinel k)).next) :
    insertHeap c heap a k q = heap q := by
  simp [insertHeap, h1, h2, h3]

/-! ## `buddy_free` on the pointer returned for the whole pool -/

/-- The buddy address computed for the payload address `base + sizeof(header)`
read with order 0: one byte above or below, never `base`. -/
theorem freeBuddy_payload (c : Consts) (hc : c.WF) (w : World) (base : Nat)
    (hb : w.base = base) (hb0 : 0 < base) (hwrap : base + c.hdr + 1 < W64) :
    ∃ b, freeBuddy w (base + c.hdr) 0 = Except.ok (Ptr.addr b) ∧ b ≠ base ∧
      b ≠ base + c.hdr := by
  obtain ⟨h1, h2, h3, h4⟩ := hc
  have hoff : (base + c.hdr + W64 - base) % W64 = c.hdr := by
    have : base + c.hdr + W64 - base = c.hdr + W64 := by omega
    rw [this, Nat.add_mod_right]
    exact Nat.mod_eq_of_lt (by omega)
  unfold freeBuddy
  rw [shl1_of_lt (by decide), shl1_of_lt (by decide), hb]
  simp only [bind, Except.bind, hoff, pow_zero, zero_add, pow_one]
  by_cases hpar : c.hdr % 2 = 0
  · refine ⟨base + c.hdr + 1, ?_, by omega, by omega⟩
    rw [if_pos hpar, Nat.mod_eq_of_lt hwrap, ofNat_of_pos (by omega)]
  · refine ⟨base + c.hdr - 1, ?_, by omega, by omega⟩
    have : (base + c.hdr + W64 - 1) % W64 = base + c.hdr - 1 := by
      have : base + c.hdr + W64 - 1 = (base + c.hdr - 1) + W64 := by omega
      rw [this, Nat.add_mod_right]
      exact Nat.mod_eq_of_lt (by omega)
    rw [if_neg hpar, this, ofNat_of_pos (by omega)]

theorem unlink_null_prev (c : Consts) (w : World) (b : Ptr)
    (hp : (w.heap b).prev = Ptr.null) : ∀ w', unlink c w b ≠ Except.ok w' := by
  intro w' h
  unfold unlink at h
  have hvn : valid c w Ptr.null = false := rfl
  by_cases hv : valid c w b = true
  · simp only [load, hv, if_true, bind, Except.bind, hp, setNext, store, hvn] at h
    simp at h
  · simp [load, hv, bind, Except.bind] at h

/-- In the state where the pool's only block is reserved, a call of `buddy_free`
on the returned pointer that returns at all inserts the payload address into
`avail[0]`. -/
theorem free_taken (c : Consts) (hc : c.WF) (K base : Nat)
    (hmap : Mapped base (2 ^ K)) (fuel : Nat) (w0 w' : World)
    (hheap : w0.heap = takenHeap c K base) (hbase : w0.base = base)
    (hnum : w0.numbytes = 2 ^ K)
    (h : buddy_free c fuel w0 (Ptr.addr (base + c.hdr)) = Except.ok w') :
    w' = { w0 with heap := freedHeap c K base } := by
  have hc' := hc
  obtain ⟨h1, h2, h3, h4⟩ := hc'
  obtain ⟨hm1, hm2⟩ := hmap
  cases fuel with
  | zero => simp [buddy_free] at h
  | succ fuel =>
    by_cases hv1 : valid c w0 (Ptr.addr (base + c.hdr)) = true
    · have hv1' := hv1
      simp only [valid, inRegion, hbase, hnum, Bool.and_eq_true, decide_eq_true_eq] at hv1'
      have hk0 : (w0.heap (Ptr.addr (base + c.hdr))).kval = 0 := by
        rw [hheap]
        have : base + c.hdr ≠ base := by omega
        simp [takenHeap, this, zeroAvail]
      obtain ⟨b, hbud, hb1, hb2⟩ := freeBuddy_payload c hc w0 base hbase hm1 (by omega)
      by_cases hv2 : valid c w0 (Ptr.addr b) = true
      · have hz : w0.heap (Ptr.addr b) = zeroAvail := by
          rw [hheap]; simp [takenHeap, hb1]
        by_cases hA : c.BLOCK_AVAIL = 0
        · exfalso
          unfold buddy_free at h
          simp only [load, hv1, if_true, bind, Except.bind, Ptr.toNat, hk0, hbud, hv2, hz,
            zeroAvail, hA, and_self] at h
          have hu := unlink_null_prev c w0 (Ptr.addr b) (by rw [hz]; rfl)
          cases hun : unlink c w0 (Ptr.addr b) with
          | error e => rw [hun] at h; simp at h
          | ok w2 => exact hu w2 hun
        · have hno : ¬ ((w0.heap (Ptr.addr b)).tag = c.BLOCK_AVAIL ∧
              (w0.heap (Ptr.addr b)).kval = 0) := by
            rw [hz]; simp [zeroAvail]; intro h0; exact absurd h0.symm hA
          rw [free_no_coalesce c fuel w0 (base + c.hdr) 0 (Ptr.addr b) hv1 hk0 hbud hv2 hno,
            insertFree_eq c w0 (base + c.hdr) 0 hv1 (by omega)
              (by rw [hheap]; simp [takenHeap, emptySentinel, valid, inRegion])] at h
          rw [← Except.ok.inj h, hheap]
          rfl
      · exfalso
        unfold buddy_free at h
        simp [load, hv1, bind, Except.bind, Ptr.toNat, hk0, hbud, hv2] at h
    · exfalso
      unfold buddy_free at h
      simp [load, hv1, bind, Except.bind] at h

/-! ## Outcomes of `buddy_malloc` -/

/-- With no step budget the split loop cannot even test its condition. -/
theorem malloc_take_zero (c : Consts) (w : World) (n kval0 a : Nat) (hn : 0 < n)
    (hk : btok ((n + c.hdr) % W64) = Except.ok kval0) (hle : kval0 ≤ w.kval_m)
    (hmax : clampOrder c kval0 ≤ c.MAX_K)
    (hhead : (w.heap (Ptr.sentinel (clampOrder c kval0))).next = Ptr.addr a)
    (hva : valid c w (Ptr.addr a) = true)
    (hvp : valid c w (w.heap (Ptr.addr a)).prev = true)
    (hpne : (w.heap (Ptr.addr a)).prev ≠ Ptr.addr a)
    (hvn : valid c w (w.heap (Ptr.addr a)).next = true) :
    buddy_malloc c 0 true w n = Except.error Stop.spin := by
  have hn0 : n ≠ 0 := Nat.pos_iff_ne_zero.mp hn
  have hfind : findBlock c w (c.MAX_K + 1 - clampOrder c kval0) (clampOrder c kval0) =
      Except.ok (Ptr.addr a) := by
    rw [← hhead]
    exact findBlock_skip c w _ hmax (by rw [hhead]; simp) _ _ (le_refl _) (by omega)
      (fun i h1 h2 => by omega)
  have hcl : (if (if kval0 < c.MIN_K then c.MIN_K else kval0) > c.MAX_K then c.MAX_K - 1
      else (if kval0 < c.MIN_K then c.MIN_K else kval0)) = clampOrder c kval0 := rfl
  have hh1 : (upd w.heap (w.heap (Ptr.addr a)).prev
      { w.heap (w.heap (Ptr.addr a)).prev with next := (w.heap (Ptr.addr a)).next })
      (Ptr.addr a) = w.heap (Ptr.addr a) := by
    simp [upd, hpne.symm]
  have hunl := unlink_eq c w (Ptr.addr a) hva hvp (by rw [hh1]; exact hvn)
  unfold buddy_malloc
  simp only [hn0, false_or, Bool.true_eq_false, if_false, hk, bind, Except.bind,
    not_lt.mpr hle, gt_iff_lt]
  simp only [gt_iff_lt] at hcl
  simp only [hcl, hfind, hunl]
  simp [splitLoop]

theorem freshHeap_sentinel_lt (c : Consts) (K base i : Nat) (h : i < K) :
    freshHeap c K base (Ptr.sentinel i) = emptySentinel c i := by
  simp [freshHeap, h]

theorem takenHeap_next (c : Consts) (K base i : Nat) :
    (takenHeap c K base (Ptr.sentinel i)).next = Ptr.sentinel i ∨
      (takenHeap c K base (Ptr.sentinel i)).next = Ptr.null := by
  by_cases h : i ≤ K
  · left; simp [takenHeap, h, emptySentinel]
  · right; simp [takenHeap, h, zeroAvail]

theorem freedHeap_sentinel (c : Consts) (K base i : Nat) (hi : 0 < i) :
    freedHeap c K base (Ptr.sentinel i) = takenHeap c K base (Ptr.sentinel i) := by
  have hne : i ≠ 0 := by omega
  apply insertHeap_frame c _ _ _ _ (by simp) (by simp [hne])
  simp [takenHeap, emptySentinel, hne]

theorem world_eta (w : World) (K base : Nat) (h : Ptr → avail) (h1 : w.kval_m = K)
    (h2 : w.numbytes = 2 ^ K) (h3 : w.base = base) (h4 : w.heap = h) :
    w = { kval_m := K, numbytes := 2 ^ K, base := base, heap := h, errno := w.errno } := by
  cases w
  simp only [World.mk.injEq] at *
  simp [h1, h2, h3, h4]

theorem malloc_oversize (c : Consts) (fuel : Nat) (w : World) (n k : Nat)
    (hn : 0 < n) (hk : btok ((n + c.hdr) % W64) = Except.ok k) (hgt : w.kval_m < k) :
    buddy_malloc c fuel true w n = Except.ok (Ptr.null, { w with errno := ENOMEM }) := by
  unfold buddy_malloc
  have hn0 : n ≠ 0 := Nat.pos_iff_ne_zero.mp hn
  simp [hn0, hk, hgt, bind, Except.bind]

/-- C1 (failing inputs, pool of 1024 bytes, `MIN_K = 5`, 32-byte header). For
`n = 64` the request has order 7 < 10: `buddy_malloc` finds the order-10 block and
enters the split loop, whose body never lowers `availBlock->kval`; no budget
suffices, so the call never returns. For `n = 992`, where no split is needed,
`buddy_malloc` returns `base + 32`, and `buddy_free` of that pointer reads the
payload as a header: `avail[10]` stays empty, the block at `base` stays `RESERVED`
and the payload address lands on `avail[0]`. -/
theorem C1_malloc_free_does_not_restore :
    ∃ w, buddy_init scen 4096 0 1024 = Except.ok w ∧
      btok ((64 + scen.hdr) % W64) = Except.ok 7 ∧
      (∀ fuel, buddy_malloc scen fuel true w 64 = Except.error Stop.spin) ∧
      ∃ w1 w2, buddy_malloc scen 1 true w 992 = Except.ok (Ptr.addr 4128, w1) ∧
        buddy_free scen 1 w1 (Ptr.addr 4128) = Except.ok w2 ∧
        (w2.heap (Ptr.sentinel 10)).next = Ptr.sentinel 10 ∧
        (w2.heap (Ptr.addr 4096)).tag = scen.BLOCK_RESERVED ∧
        (w2.heap (Ptr.sentinel 0)).next = Ptr.addr 4128 := by
  refine ⟨freshWorld scen 10 4096 0, scen_init_1024, rfl, fun fuel =>
    malloc_fresh_split_spin scen (by decide) 10 4096 0 64 7 (by decide) (by decide)
      (by decide) (by decide) rfl (by decide) (by decide) fuel, ?_⟩
  have hm := malloc_fresh_full scen (by decide) 0 10 4096 0 992 10 (by decide) (by decide)
    (by decide) (by decide) rfl (by decide) (by decide)
  have hmod : (4128 + W64 - 4096) % W64 % 2 ^ (0 + 1) = 0 := by decide
  have hadd : (4128 + 2 ^ 0) % W64 = 4129 := by decide
  have hbud : freeBuddy { freshWorld scen 10 4096 0 with heap := takenHeap scen 10 4096 }
      4128 0 = Except.ok (Ptr.addr 4129) := by
    have hbase : ({ freshWorld scen 10 4096 0 with heap := takenHeap scen 10 4096 } :
        World).base = 4096 := rfl
    unfold freeBuddy
    rw [shl1_of_lt (by decide), shl1_of_lt (by decide), hbase]
    simp only [bind, Except.bind, hmod, if_true, hadd]
    rfl
  have hfree := free_no_coalesce scen 0
    { freshWorld scen 10 4096 0 with heap := takenHeap scen 10 4096 } 4128 0 (Ptr.addr 4129)
    rfl rfl hbud rfl (by decide)
  have hins := insertFree_eq scen
    { freshWorld scen 10 4096 0 with heap := takenHeap scen 10 4096 } 4128 0 rfl
    (by decide) rfl
  refine ⟨_, _, hm, by rw [hfree, hins], ?_, ?_, ?_⟩ <;>
    simp [insertHeap, takenHeap, freshWorld, emptySentinel, scen]

/-- C11: for every byte count up to `2^63`, `btok` returns (the loop ends within
its 64 possible iterations) the smallest `k` with `2^k ≥ bytes`: the result
satisfies `bytes ≤ 2^k`, and `2^j < bytes` for every `j < k`. -/
theorem C11_btok_least_order (bytes : Nat) (hb : bytes ≤ 2 ^ 63) :
    ∃ k, btok bytes = Except.ok k ∧ bytes ≤ 2 ^ k ∧ ∀ j, j < k → 2 ^ j < bytes := by
  refine ⟨Nat.clog 2 bytes, btok_eq bytes hb, Nat.le_pow_clog (by decide) bytes, ?_⟩
  intro j hj
  exact (Nat.pow_lt_iff_lt_clog (by decide)).mpr hj

/-- Instance of C11 at `bytes = 1000`. -/
theorem C11_btok_least_order_witness :
    ∃ k, btok 1000 = Except.ok k ∧ 1000 ≤ 2 ^ k ∧ ∀ j, j < k → 2 ^ j < 1000 :=
  C11_btok_least_order 1000 (by decide)

theorem clog_two_pow_succ (n : Nat) : Nat.clog 2 (2 ^ n + 1) = n + 1 := by
  apply le_antisymm
  · apply (Nat.le_pow_iff_clog_le (by decide)).mp
    have : 0 < 2 ^ n := Nat.pow_pos (by decide)
    rw [pow_succ]
    omega
  · exact (Nat.pow_lt_iff_lt_clog (by decide)).mp (Nat.lt_succ_self _)

/-- C12: `btok(0) = 0`, `btok(1) = 0`, `btok(2) = 1`, `btok(2^63) = 63`, and for
every `n ≤ 62`, `btok(2^n) = n` and `btok(2^n + 1) = n + 1`. -/
theorem C12_btok_values (n : Nat) (hn : n ≤ 62) :
    btok 0 = Except.ok 0 ∧ btok 1 = Except.ok 0 ∧ btok 2 = Except.ok 1 ∧
      btok (2 ^ 63) = Except.ok 63 ∧ btok (2 ^ n) = Except.ok n ∧
      btok (2 ^ n + 1) = Except.ok (n + 1) := by
  refine ⟨rfl, rfl, rfl, btok_pow 63 (le_refl _), btok_pow n (by omega), ?_⟩
  have h1 : 2 ^ n ≤ 2 ^ 62 := Nat.pow_le_pow_right (by decide) hn
  rw [btok_eq _ (by omega), clog_two_pow_succ]

/-- Instance of C12 at `n = 62`, the largest exponent of the claim. -/
theorem C12_btok_values_witness :
    btok 0 = Except.ok 0 ∧ btok 1 = Except.ok 0 ∧ btok 2 = Except.ok 1 ∧
      btok (2 ^ 63) = Except.ok 63 ∧ btok (2 ^ 62) = Except.ok 62 ∧
      btok (2 ^ 62 + 1) = Except.ok (62 + 1) :=
  C12_btok_values 62 (by decide)

/-- C13: `btok` is monotone on byte counts up to `2^63`: for `a ≤ b ≤ 2^63` both
calls return, and the order of `a` is at most the order of `b`. -/
theorem C13_btok_monotone (a b : Nat) (hab : a ≤ b) (hb : b ≤ 2 ^ 63) :
    ∃ ka kb, btok a = Except.ok ka ∧ btok b = Except.ok kb ∧ ka ≤ kb :=
  ⟨Nat.clog 2 a, Nat.clog 2 b, btok_eq a (le_trans hab hb), btok_eq b hb,
    Nat.clog_mono_right 2 hab⟩

/-- Instance of C13 at `a = 33`, `b = 1000`. -/
theorem C13_btok_monotone_witness :
    ∃ ka kb, btok 33 = Except.ok ka ∧ btok 1000 = Except.ok kb ∧ ka ≤ kb :=
  C13_btok_monotone 33 1000 (by decide) (by decide)

/-! ## Flipping one bit of an offset -/

/-- Exclusive or with `2^k` sets bit `k` of a multiple of `2^(k+1)`. -/
theorem xor_two_pow_of_even (k q : Nat) :
    (2 ^ (k + 1) * q) ^^^ 2 ^ k = 2 ^ (k + 1) * q + 2 ^ k := by
  have hlt : 2 ^ k < 2 ^ (k + 1) := Nat.pow_lt_pow_right (by decide) (Nat.lt_succ_self k)
  apply Nat.eq_of_testBit_eq
  intro j
  rw [Nat.testBit_xor, Nat.testBit_mul_pow_two_add q hlt j, Nat.testBit_mul_pow_two,
    Nat.testBit_two_pow]
  by_cases hj : j < k + 1
  · have h1 : ¬ (j ≥ k + 1) := by omega
    simp [hj, h1]
  · have h1 : j ≥ k + 1 := by omega
    have h2 : ¬ (k = j) := by omega
    simp [hj, h1, h2]

/-- Exclusive or with `2^k` clears bit `k` again. -/
theorem xor_two_pow_of_odd (k q : Nat) :
    (2 ^ (k + 1) * q + 2 ^ k) ^^^ 2 ^ k = 2 ^ (k + 1) * q := by
  rw [← xor_two_pow_of_even, Nat.xor_assoc, Nat.xor_self, Nat.xor_zero]

/-- A multiple of `2^k` is a multiple of `2^(k+1)`, or one plus `2^k`. -/
theorem split_multiple (k off : Nat) (h : off % 2 ^ k = 0) :
    (off % 2 ^ (k + 1) = 0 ∧ off = 2 ^ (k + 1) * (off / 2 ^ (k + 1))) ∨
      (off % 2 ^ (k + 1) ≠ 0 ∧ off = 2 ^ (k + 1) * (off / 2 ^ (k + 1)) + 2 ^ k) := by
  have hdiv := Nat.div_add_mod off (2 ^ (k + 1))
  have hr : off % 2 ^ (k + 1) < 2 ^ (k + 1) := Nat.mod_lt _ (Nat.pow_pos (by decide))
  have hrr : (off % 2 ^ (k + 1)) % 2 ^ k = 0 := by
    rw [Nat.mod_mod_of_dvd off (pow_dvd_pow 2 (Nat.le_succ k))]
    exact h
  have hp : 2 ^ (k + 1) = 2 * 2 ^ k := by rw [pow_succ]; omega
  obtain ⟨t, ht⟩ := Nat.dvd_of_mod_eq_zero hrr
  have hpos : 0 < 2 ^ k := Nat.pow_pos (by decide)
  have ht2 : t < 2 := by
    by_contra hcon
    have h2 : 2 ≤ t := by omega
    have := Nat.mul_le_mul_left (2 ^ k) h2
    rw [← ht] at this
    omega
  rcases Nat.lt_succ_iff.mp ht2 with ht1
  interval_cases t
  · left
    rw [Nat.mul_zero] at ht
    exact ⟨ht, by omega⟩
  · right
    rw [Nat.mul_one] at ht
    exact ⟨by omega, by omega⟩

/-- Flipping bit `k` of a multiple of `2^k` moves it by `2^k`: up when it is a
multiple of `2^(k+1)`, down otherwise. -/
theorem xor_two_pow_cases (k off : Nat) (h : off % 2 ^ k = 0) :
    (off % 2 ^ (k + 1) = 0 ∧ off ^^^ 2 ^ k = off + 2 ^ k) ∨
      (off % 2 ^ (k + 1) ≠ 0 ∧ 2 ^ k ≤ off ∧ off ^^^ 2 ^ k = off - 2 ^ k) := by
  rcases split_multiple k off h with ⟨h0, he⟩ | ⟨h0, he⟩
  · left
    refine ⟨h0, ?_⟩
    conv_lhs => rw [he]
    rw [xor_two_pow_of_even]
    omega
  · right
    refine ⟨h0, by omega, ?_⟩
    conv_lhs => rw [he]
    rw [xor_two_pow_of_odd]
    omega

theorem xor_two_pow_mod (k off : Nat) (h : off % 2 ^ k = 0) : (off ^^^ 2 ^ k) % 2 ^ k = 0 := by
  have hp : 2 ^ (k + 1) = 2 ^ k * 2 := pow_succ 2 k
  rcases xor_two_pow_cases k off h with ⟨_, he⟩ | ⟨_, hle, he⟩
  · rw [he, Nat.add_mod_right]; exact h
  · rw [he]
    obtain ⟨t, ht⟩ := Nat.dvd_of_mod_eq_zero h
    have : off - 2 ^ k = 2 ^ k * (t - 1) := by
      rw [Nat.mul_sub, Nat.mul_one, ← ht]
    rw [this]
    exact Nat.mul_mod_right _ _

theorem xor_two_pow_testBit (k off i : Nat) :
    Nat.testBit (off ^^^ 2 ^ k) i = if i = k then !Nat.testBit off i else Nat.testBit off i := by
  rw [Nat.testBit_xor, Nat.testBit_two_pow]
  by_cases h : i = k
  · subst h; simp
  · have h' : ¬ k = i := fun e => h e.symm
    simp [h, h']

theorem sub_mod_W64 (a base : Nat) (h1 : base ≤ a) (h2 : a < W64) :
    (a + W64 - base) % W64 = a - base := by
  have : a + W64 - base = (a - base) + W64 := by omega
  rw [this, Nat.add_mod_right]
  exact Nat.mod_eq_of_lt (by omega)

theorem valid_addr_ge (c : Consts) (w : World) (a : Nat) (h : valid c w (Ptr.addr a) = true) :
    w.base ≤ a ∧ a + c.hdr ≤ w.base + w.numbytes := by
  simpa [valid, inRegion] using h

/-- Closed form of `buddy_calc` on an accessible block header. -/
theorem buddy_calc_eq (c : Consts) (w : World) (a k : Nat)
    (hv : valid c w (Ptr.addr a) = true) (hk : (w.heap (Ptr.addr a)).kval = k)
    (hk64 : k < 64) (ha : a < W64) :
    buddy_calc c true w (Ptr.addr a) =
      Except.ok (Ptr.ofNat ((w.base + ((a - w.base) ^^^ 2 ^ k)) % W64)) := by
  have hge := (valid_addr_ge c w a hv).1
  simp [buddy_calc, Ptr.toNat, load, hv, hk, shl1_of_lt hk64, sub_mod_W64 a w.base hge ha,
    bind, Except.bind]

/-- C14: `buddy_calc` returns `NULL` when the pool or the block is absent;
otherwise, for an accessible block at address `a` with `k = kval` and
`off = a - base`, it returns `base + (off XOR 2^k)` (in 64-bit arithmetic, the
shift taken before the exclusive or); and when `off` is a multiple of `2^k`, so is
`off XOR 2^k`, which differs from `off` in bit `k` and in no other bit. -/
theorem C14_buddy_calc_flips_bit_k (c : Consts) (w : World) (a k : Nat)
    (hv : valid c w (Ptr.addr a) = true) (hk : (w.heap (Ptr.addr a)).kval = k)
    (hk64 : k < 64) (ha : a < W64) (hal : (a - w.base) % 2 ^ k = 0) :
    buddy_calc c false w (Ptr.addr a) = Except.ok Ptr.null ∧
      buddy_calc c true w Ptr.null = Except.ok Ptr.null ∧
      buddy_calc c true w (Ptr.addr a) =
        Except.ok (Ptr.ofNat ((w.base + ((a - w.base) ^^^ 2 ^ k)) % W64)) ∧
      ((a - w.base) ^^^ 2 ^ k) % 2 ^ k = 0 ∧
      ∀ i, Nat.testBit ((a - w.base) ^^^ 2 ^ k) i =
        if i = k then !Nat.testBit (a - w.base) i else Nat.testBit (a - w.base) i := by
  refine ⟨by simp [buddy_calc], by simp [buddy_calc], buddy_calc_eq c w a k hv hk hk64 ha,
    xor_two_pow_mod k _ hal, fun i => xor_two_pow_testBit k _ i⟩

/-- Instance of C14: the block at 4096 (offset 0, order 6) of `twoFreePool`; its
buddy is at offset 64. -/
theorem C14_buddy_calc_flips_bit_k_witness :
    buddy_calc scen false twoFreePool (Ptr.addr 4096) = Except.ok Ptr.null ∧
      buddy_calc scen true twoFreePool Ptr.null = Except.ok Ptr.null ∧
      buddy_calc scen true twoFreePool (Ptr.addr 4096) =
        Except.ok (Ptr.ofNat ((twoFreePool.base + ((4096 - twoFreePool.base) ^^^ 2 ^ 6)) % W64)) ∧
      ((4096 - twoFreePool.base) ^^^ 2 ^ 6) % 2 ^ 6 = 0 ∧
      ∀ i, Nat.testBit ((4096 - twoFreePool.base) ^^^ 2 ^ 6) i =
        if i = 6 then !Nat.testBit (4096 - twoFreePool.base) i
        else Nat.testBit (4096 - twoFreePool.base) i :=
  C14_buddy_calc_flips_bit_k scen twoFreePool 4096 6 rfl rfl (by decide) (by decide)
    (by decide)

/-- C15: for every order `k < 63` and every accessible block of that order whose
offset from `base` is a multiple of `2^k`, the buddy address `buddy_free` computes
with its alignment test is the address `buddy_calc` computes with the exclusive
or. -/
theorem C15_alignment_test_equals_xor (c : Consts) (w : World) (a k : Nat)
    (hv : valid c w (Ptr.addr a) = true) (hk : (w.heap (Ptr.addr a)).kval = k)
    (hk63 : k < 63) (ha : a < W64) (hal : (a - w.base) % 2 ^ k = 0) :
    freeBuddy w a k = buddy_calc c true w (Ptr.addr a) := by
  have hge := (valid_addr_ge c w a hv).1
  rw [buddy_calc_eq c w a k hv hk (by omega) ha]
  unfold freeBuddy
  rw [shl1_of_lt (by omega), shl1_of_lt (by omega)]
  simp only [bind, Except.bind, sub_mod_W64 a w.base hge ha]
  rcases xor_two_pow_cases k (a - w.base) hal with ⟨h0, he⟩ | ⟨h0, hle, he⟩
  · rw [if_pos h0, he]
    have : w.base + (a - w.base + 2 ^ k) = a + 2 ^ k := by omega
    rw [this]
  · rw [if_neg h0, he]
    have h1 : w.base + (a - w.base - 2 ^ k) = a - 2 ^ k := by omega
    have h2 : a + W64 - 2 ^ k = (a - 2 ^ k) + W64 := by omega
    rw [h1, h2, Nat.add_mod_right]

/-- Instance of C15: the block at 4224 (offset 128, order 6) of `twoFreePool`. -/
theorem C15_alignment_test_equals_xor_witness :
    freeBuddy twoFreePool 4224 6 = buddy_calc scen true twoFreePool (Ptr.addr 4224) :=
  C15_alignment_test_equals_xor scen twoFreePool 4224 6 rfl rfl (by decide) (by decide)
    (by decide)

/-! ## Header writes leave the pool record alone -/

theorem bind_ok {α β : Type} (x : Except Stop α) (f : α → Except Stop β) (b : β)
    (h : (x >>= f) = Except.ok b) : ∃ a, x = Except.ok a ∧ f a = Except.ok b := by
  cases x with
  | error e => simp [bind, Except.bind] at h
  | ok a => exact ⟨a, rfl, h⟩

theorem sameRecord_refl (w : World) : sameRecord w w := ⟨rfl, rfl, rfl, rfl⟩

theorem sameRecord_trans {w1 w2 w3 : World} (h1 : sameRecord w1 w2) (h2 : sameRecord w2 w3) :
    sameRecord w1 w3 :=
  ⟨h2.1.trans h1.1, h2.2.1.trans h1.2.1, h2.2.2.1.trans h1.2.2.1, h2.2.2.2.trans h1.2.2.2⟩

theorem store_same (c : Consts) (w w' : World) (p : Ptr) (x : avail)
    (h : store c w p x = Except.ok w') : sameRecord w w' ∧ valid c w p = true := by
  unfold store at h
  by_cases hv : valid c w p = true
  · rw [if_pos hv] at h
    rw [← Except.ok.inj h]
    exact ⟨⟨rfl, rfl, rfl, rfl⟩, hv⟩
  · rw [if_neg hv] at h
    exact absurd h (by simp)

theorem valid_same (c : Consts) {w w' : World} (h : sameRecord w w') (p : Ptr) :
    valid c w' p = valid c w p :=
  valid_of_same_region c w w' p h.2.2.1 h.2.1

theorem unlink_same (c : Consts) (w w' : World) (b : Ptr)
    (h : unlink c w b = Except.ok w') : sameRecord w w' := by
  unfold unlink at h
  obtain ⟨hb, _, h⟩ := bind_ok _ _ _ h
  obtain ⟨w1, h1, h⟩ := bind_ok _ _ _ h
  obtain ⟨hb1, _, h⟩ := bind_ok _ _ _ h
  exact sameRecord_trans (store_same c _ _ _ _ h1).1 (store_same c _ _ _ _ h).1

theorem splitBody_same (c : Consts) (w w' : World) (b : Ptr)
    (h : splitBody c w b = Except.ok w') : sameRecord w w' := by
  unfold splitBody at h
  obtain ⟨hb, _, h⟩ := bind_ok _ _ _ h
  obtain ⟨sz, _, h⟩ := bind_ok _ _ _ h
  obtain ⟨bb, _, h⟩ := bind_ok _ _ _ h
  obtain ⟨w1, h1, h⟩ := bind_ok _ _ _ h
  obtain ⟨hb1, _, h⟩ := bind_ok _ _ _ h
  obtain ⟨w2, h2, h⟩ := bind_ok _ _ _ h
  obtain ⟨bb2, _, h⟩ := bind_ok _ _ _ h
  obtain ⟨s2, _, h⟩ := bind_ok _ _ _ h
  obtain ⟨w3, h3, h⟩ := bind_ok _ _ _ h
  obtain ⟨bb3, _, h⟩ := bind_ok _ _ _ h
  obtain ⟨w4, h4, h⟩ := bind_ok _ _ _ h
  obtain ⟨bb4, _, h⟩ := bind_ok _ _ _ h
  obtain ⟨w5, h5, h⟩ := bind_ok _ _ _ h
  obtain ⟨bb5, _, h⟩ := bind_ok _ _ _ h
  have s1 := (store_same c _ _ _ _ h1).1
  have s2' := (store_same c _ _ _ _ h2).1
  have s3 := (store_same c _ _ _ _ h3).1
  have s4 := (store_same c _ _ _ _ h4).1
  have s5 := (store_same c _ _ _ _ h5).1
  have s6 := (store_same c _ _ _ _ h).1
  exact sameRecord_trans s1 (sameRecord_trans s2' (sameRecord_trans s3
    (sameRecord_trans s4 (sameRecord_trans s5 s6))))

theorem splitLoop_same (c : Consts) (b : Ptr) (kval : Nat) :
    ∀ (fuel : Nat) (w w' : World), splitLoop c fuel w b kval = Except.ok w' →
      sameRecord w w' := by
  intro fuel
  induction fuel with
  | zero => intro w w' h; simp [splitLoop] at h
  | succ n ih =>
    intro w w' h
    unfold splitLoop at h
    obtain ⟨hb, _, h⟩ := bind_ok _ _ _ h
    by_cases hgt : hb.kval > kval
    · rw [if_pos hgt] at h
      obtain ⟨w1, h1, h⟩ := bind_ok _ _ _ h
      exact sameRecord_trans (splitBody_same c _ _ _ h1) (ih _ _ h)
    · rw [if_neg hgt] at h
      rw [← Except.ok.inj h]
      exact sameRecord_refl w

/-- A `NULL` result of `buddy_malloc` for a positive size on a present pool comes
with `errno = ENOMEM`. -/
theorem malloc_null_errno (c : Consts) (hh : 0 < c.hdr) (w : World)
    (hmap : w.base + w.numbytes < W64) (fuel n : Nat) (w' : World) (hn : 0 < n)
    (hm : buddy_malloc c fuel true w n = Except.ok (Ptr.null, w')) :
    w'.errno = ENOMEM := by
  have hn0 : n ≠ 0 := Nat.pos_iff_ne_zero.mp hn
  unfold buddy_malloc at hm
  rw [if_neg (by simp [hn0])] at hm
  obtain ⟨kval0, _, hm⟩ := bind_ok _ _ _ hm
  by_cases hgt : kval0 > w.kval_m
  · rw [if_pos hgt] at hm
    rw [← (Prod.mk.inj (Except.ok.inj hm)).2]
  · rw [if_neg hgt] at hm
    obtain ⟨ab, _, hm⟩ := bind_ok _ _ _ hm
    by_cases hnull : ab = Ptr.null
    · rw [if_pos hnull] at hm
      rw [← (Prod.mk.inj (Except.ok.inj hm)).2]
    · exfalso
      rw [if_neg hnull] at hm
      obtain ⟨w1, h1, hm⟩ := bind_ok _ _ _ hm
      obtain ⟨w2, h2, hm⟩ := bind_ok _ _ _ hm
      obtain ⟨w3, h3, hm⟩ := bind_ok _ _ _ hm
      obtain ⟨r, hr, hm⟩ := bind_ok _ _ _ hm
      have hs := sameRecord_trans (unlink_same c _ _ _ h1) (splitLoop_same c _ _ _ _ _ h2)
      have hv := (store_same c _ _ _ _ h3).2
      rw [valid_same c hs] at hv
      have hrn : r = Ptr.null := (Prod.mk.inj (Except.ok.inj hm)).1
      cases ab with
      | null => exact hnull rfl
      | sentinel k => simp [Ptr.add, Ptr.toNat, bind, Except.bind] at hr
      | addr a =>
        obtain ⟨_, hle⟩ := valid_addr_ge c w a hv
        have hlt : a + c.hdr < W64 := by omega
        simp only [Ptr.add, Ptr.toNat, bind, Except.bind, Nat.mod_eq_of_lt hlt] at hr
        rw [ofNat_of_pos (by omega)] at hr
        rw [← Except.ok.inj hr] at hrn
        exact absurd hrn (by simp)

/-- C17 (as stated, fails): with `errno = 0` before the call, `buddy_malloc(pool, 0)`
and `buddy_malloc(NULL, 64)` both return `NULL` through the guard at lab.c:57 and
leave `errno = 0`, which is not `ENOMEM`. -/
theorem C17_null_without_ENOMEM :
    buddy_malloc scen 1 true (freshWorld scen 10 4096 0) 0 =
        Except.ok (Ptr.null, freshWorld scen 10 4096 0) ∧
      buddy_malloc scen 1 false (freshWorld scen 10 4096 0) 64 =
        Except.ok (Ptr.null, freshWorld scen 10 4096 0) ∧
      (freshWorld scen 10 4096 0).errno ≠ ENOMEM := by
  refine ⟨by simp [buddy_malloc], by simp [buddy_malloc], by decide⟩

/-- C17 (amended): for a present pool (region below the top of the address space)
and every byte count `n > 0`, whenever `buddy_malloc` returns `NULL` the error code
is `ENOMEM` after the call; for `n = 0` or an absent pool it returns `NULL` and
leaves the state, `errno` included, as it was. -/
theorem C17_null_sets_ENOMEM_when_requested (c : Consts) (hh : 0 < c.hdr) (w : World)
    (hmap : w.base + w.numbytes < W64) (fuel n : Nat) :
    (∀ pool, n = 0 ∨ pool = false → buddy_malloc c fuel pool w n = Except.ok (Ptr.null, w)) ∧
      (0 < n → ∀ w', buddy_malloc c fuel true w n = Except.ok (Ptr.null, w') →
        w'.errno = ENOMEM) := by
  constructor
  · intro pool h
    unfold buddy_malloc
    rw [if_pos h]
  · intro hn w' hm
    exact malloc_null_errno c hh w hmap fuel n w' hn hm

/-- Instance of C17 (amended): the scenario pool and 2000 bytes, an oversize
request. -/
theorem C17_null_sets_ENOMEM_when_requested_witness :
    (∀ pool, 2000 = 0 ∨ pool = false →
        buddy_malloc scen 0 pool (freshWorld scen 10 4096 0) 2000 =
          Except.ok (Ptr.null, freshWorld scen 10 4096 0)) ∧
      (0 < 2000 → ∀ w', buddy_malloc scen 0 true (freshWorld scen 10 4096 0) 2000 =
        Except.ok (Ptr.null, w') → w'.errno = ENOMEM) :=
  C17_null_sets_ENOMEM_when_requested scen (by decide) (freshWorld scen 10 4096 0)
    (by decide) 0 2000

/-- C19 (as the code behaves): in a pool state where the lists `avail[k_req]` up to
`avail[k-1]` are empty and `avail[k]`, `k > k_req`, has at its head a block of
order `k` whose upper half lies inside the region, `buddy_malloc` does not
terminate: one pass of the split-loop body leaves `availBlock->kval` at `k`, so
the loop condition never becomes false and every step budget is exhausted. -/
theorem C19_split_loop_never_ends (c : Consts) (w : World) (n kval0 a k : Nat) (hn : 0 < n)
    (hk : btok ((n + c.hdr) % W64) = Except.ok kval0) (hle : kval0 ≤ w.kval_m)
    (hreq : clampOrder c kval0 < k) (hkmax : k ≤ c.MAX_K) (hk64 : k ≤ 64)
    (hempty : ∀ i, clampOrder c kval0 ≤ i → i < k →
      (w.heap (Ptr.sentinel i)).next = Ptr.sentinel i)
    (hhead : (w.heap (Ptr.sentinel k)).next = Ptr.addr a)
    (hva : valid c w (Ptr.addr a) = true)
    (hprev : (w.heap (Ptr.addr a)).prev = Ptr.sentinel k)
    (hnext : (w.heap (Ptr.addr a)).next = Ptr.sentinel k ∨
      ∃ b, (w.heap (Ptr.addr a)).next = Ptr.addr b ∧ valid c w (Ptr.addr b) = true)
    (hkv : (w.heap (Ptr.addr a)).kval = k)
    (hvb : valid c w (Ptr.addr (a + 2 ^ (k - 1))) = true)
    (hwrap : a + 2 ^ (k - 1) < W64) :
    (∃ w1 w2, unlink c w (Ptr.addr a) = Except.ok w1 ∧
        splitBody c w1 (Ptr.addr a) = Except.ok w2 ∧ (w2.heap (Ptr.addr a)).kval = k) ∧
      ∀ fuel, buddy_malloc c fuel true w n = Except.error Stop.spin := by
  have hn0 : n ≠ 0 := Nat.pos_iff_ne_zero.mp hn
  have hvs : valid c w (Ptr.sentinel k) = true := by
    simp only [valid, inRegion, decide_eq_true_eq]; exact hkmax
  have hfind : findBlock c w (c.MAX_K + 1 - clampOrder c kval0) (clampOrder c kval0) =
      Except.ok (Ptr.addr a) := by
    rw [← hhead]
    exact findBlock_skip c w k hkmax (by rw [hhead]; simp) _ _ (le_of_lt hreq) (by omega)
      hempty
  have hh1 : (upd w.heap (w.heap (Ptr.addr a)).prev
      { w.heap (w.heap (Ptr.addr a)).prev with next := (w.heap (Ptr.addr a)).next })
      (Ptr.addr a) = w.heap (Ptr.addr a) := by
    simp [hprev]
  have hvn : valid c w (w.heap (Ptr.addr a)).next = true := by
    rcases hnext with h | ⟨b, h, hb⟩
    · rw [h]; exact hvs
    · rw [h]; exact hb
  have hunl := unlink_eq c w (Ptr.addr a) hva (by rw [hprev]; exact hvs)
    (by rw [hh1]; exact hvn)
  have hkpos : 0 < k := by omega
  have hsent : (unlinkHeap w.heap (Ptr.addr a) (Ptr.sentinel (k - 1))).next =
      Ptr.sentinel (k - 1) := by
    have hne : k - 1 ≠ k := by omega
    have hnx : Ptr.sentinel (k - 1) ≠ (w.heap (Ptr.addr a)).next := by
      rcases hnext with h | ⟨b, h, _⟩ <;> rw [h] <;> simp [hne]
    have hold := hempty (k - 1) (by omega) (by omega)
    simp only [unlinkHeap, hh1]
    simp [hprev, hne, hnx, hold]
  have hkv1 : (unlinkHeap w.heap (Ptr.addr a) (Ptr.addr a)).kval = k := by
    rw [unlinkHeap_kval]; exact hkv
  have hva1 : valid c { w with heap := unlinkHeap w.heap (Ptr.addr a) } (Ptr.addr a) = true := by
    rw [valid_heap_irrel]; exact hva
  have hvb1 : valid c { w with heap := unlinkHeap w.heap (Ptr.addr a) }
      (Ptr.addr (a + 2 ^ (k - 1))) = true := by
    rw [valid_heap_irrel]; exact hvb
  constructor
  · obtain ⟨w2, hbody, _, _, hsame, _⟩ := splitBody_keeps c
      { w with heap := unlinkHeap w.heap (Ptr.addr a) } a k (by omega) (by omega) hkv1 hva1
      hvb1 hwrap (Or.inl hsent)
    exact ⟨_, w2, hunl, hbody, by rw [hsame]; exact hkv1⟩
  · intro fuel
    have hspin := splitLoop_spin c a k (clampOrder c kval0) hreq (by omega) (by omega) hwrap
      fuel { w with heap := unlinkHeap w.heap (Ptr.addr a) } hkv1 hva1 hvb1 (Or.inl hsent)
    have hcl : (if (if kval0 < c.MIN_K then c.MIN_K else kval0) > c.MAX_K then c.MAX_K - 1
        else (if kval0 < c.MIN_K then c.MIN_K else kval0)) = clampOrder c kval0 := rfl
    unfold buddy_malloc
    simp only [hn0, false_or, Bool.true_eq_false, if_false, hk, bind, Except.bind,
      not_lt.mpr hle, gt_iff_lt]
    simp only [gt_iff_lt] at hcl
    simp only [hcl, hfind, hunl, hspin]
    simp

/-- Instance of C19: the fresh scenario pool (`kval_m = 10`) and a request of 100
bytes, of order 8: the donor block has order 10. -/
theorem C19_split_loop_never_ends_witness :
    (∃ w1 w2, unlink scen (freshWorld scen 10 4096 0) (Ptr.addr 4096) = Except.ok w1 ∧
        splitBody scen w1 (Ptr.addr 4096) = Except.ok w2 ∧
        (w2.heap (Ptr.addr 4096)).kval = 10) ∧
      ∀ fuel, buddy_malloc scen fuel true (freshWorld scen 10 4096 0) 100 =
        Except.error Stop.spin :=
  C19_split_loop_never_ends scen (freshWorld scen 10 4096 0) 100 8 4096 10 (by decide) rfl
    (by decide) (by decide) (by decide) (by decide)
    (fun i h1 h2 => by
      have h3 : i < 10 := h2
      simp [freshWorld, freshHeap, h3, emptySentinel])
    rfl rfl rfl (Or.inl rfl) rfl rfl (by decide)

/-! ## `buddy_free` when the buddy is available -/

/-- One coalescing step: the buddy is unlinked and the function calls itself on the
lower of the two addresses; no header field of either block is written. -/
theorem free_coalesce_step (c : Consts) (fuel : Nat) (w w2 : World) (a k b : Nat)
    (hva : valid c w (Ptr.addr a) = true) (hk : (w.heap (Ptr.addr a)).kval = k)
    (hbud : freeBuddy w a k = Except.ok (Ptr.addr b))
    (hvb : valid c w (Ptr.addr b) = true)
    (hyes : (w.heap (Ptr.addr b)).tag = c.BLOCK_AVAIL ∧ (w.heap (Ptr.addr b)).kval = k)
    (hunl : unlink c w (Ptr.addr b) = Except.ok w2) :
    buddy_free c (fuel + 1) w (Ptr.addr a) =
      buddy_free c fuel w2 (if b < a then Ptr.addr b else Ptr.addr a) := by
  conv_lhs => unfold buddy_free
  simp only [load, hva, if_true, bind, Except.bind, Ptr.toNat, hk, hbud, hvb, hyes, and_self,
    hunl]

/-- When the header at the computed buddy address cannot be accessed, the call has
no defined result. -/
theorem free_buddy_invalid (c : Consts) (fuel : Nat) (w : World) (a k : Nat) (bud : Ptr)
    (hva : valid c w (Ptr.addr a) = true) (hk : (w.heap (Ptr.addr a)).kval = k)
    (hbud : freeBuddy w a k = Except.ok bud) (hvb : valid c w bud = false) :
    buddy_free c (fuel + 1) w (Ptr.addr a) = Except.error Stop.undef := by
  unfold buddy_free
  simp [load, hva, bind, Except.bind, Ptr.toNat, hk, hbud, hvb]

theorem freeBuddy_heap_irrel (w : World) (h : Ptr → avail) (a k : Nat) :
    freeBuddy { w with heap := h } a k = freeBuddy w a k := rfl

/-- When the block freed is the lower one of the pair and its buddy is an available
block of the same order, the call never returns: after the unlinking the function
calls itself on the same block, whose `kval` is unchanged, and finds the same
buddy, still tagged available. -/
theorem free_lower_spin (c : Consts) (w : World) (a k b : Nat) (hab : a < b)
    (hva : valid c w (Ptr.addr a) = true) (hvb : valid c w (Ptr.addr b) = true)
    (hbud : freeBuddy w a k = Except.ok (Ptr.addr b)) (x : avail)
    (hx : x.tag = c.BLOCK_AVAIL ∧ x.kval = k)
    (hvp : valid c w x.prev = true) (hvn : valid c w x.next = true)
    (hp : x.prev ≠ Ptr.addr b) (hn : x.next ≠ Ptr.addr b) :
    ∀ (fuel : Nat) (heap : Ptr → avail), (heap (Ptr.addr a)).kval = k →
      heap (Ptr.addr b) = x →
      buddy_free c fuel { w with heap := heap } (Ptr.addr a) = Except.error Stop.spin := by
  intro fuel
  induction fuel with
  | zero => intro heap _ _; rfl
  | succ n ih =>
    intro heap hk hb
    have hh1 : (upd heap (heap (Ptr.addr b)).prev
        { heap (heap (Ptr.addr b)).prev with next := (heap (Ptr.addr b)).next })
        (Ptr.addr b) = heap (Ptr.addr b) := by
      rw [hb]; simp [hp.symm]; exact hb
    have hunl := unlink_eq c { w with heap := heap } (Ptr.addr b)
      (by rw [valid_heap_irrel]; exact hvb)
      (by rw [valid_heap_irrel]; show valid c w (heap (Ptr.addr b)).prev = true
          rw [hb]; exact hvp)
      (by rw [valid_heap_irrel]; show valid c w ((upd heap _ _) (Ptr.addr b)).next = true
          rw [hh1, hb]; exact hvn)
    rw [free_coalesce_step c n { w with heap := heap } _ a k b
      (by rw [valid_heap_irrel]; exact hva) hk
      (by rw [freeBuddy_heap_irrel]; exact hbud)
      (by rw [valid_heap_irrel]; exact hvb)
      (by show (heap (Ptr.addr b)).tag = _ ∧ (heap (Ptr.addr b)).kval = _; rw [hb]; exact hx)
      hunl]
    rw [if_neg (by omega)]
    apply ih
    · rw [unlinkHeap_kval]; exact hk
    · show unlinkHeap heap (Ptr.addr b) (Ptr.addr b) = x
      simp only [unlinkHeap, hh1]
      rw [upd_apply, if_neg (by rw [hb]; exact hn.symm), hh1, hb]

/-- The alignment test of `buddy_free` picks the upper neighbour. -/
theorem freeBuddy_up (w : World) (a k : Nat) (hk : k < 63)
    (hoff : ((a + W64 - w.base) % W64) % 2 ^ (k + 1) = 0) (hlt : a + 2 ^ k < W64) :
    freeBuddy w a k = Except.ok (Ptr.addr (a + 2 ^ k)) := by
  have hpos : 0 < 2 ^ k := Nat.pow_pos (by decide)
  unfold freeBuddy
  rw [shl1_of_lt (by omega), shl1_of_lt (by omega)]
  simp only [bind, Except.bind, hoff, if_true, Nat.mod_eq_of_lt hlt]
  rw [ofNat_of_pos (by omega)]

/-- The alignment test of `buddy_free` picks the lower neighbour. -/
theorem freeBuddy_down (w : World) (a k : Nat) (hk : k < 63)
    (hoff : ((a + W64 - w.base) % W64) % 2 ^ (k + 1) ≠ 0) (hge : 2 ^ k < a) (ha : a < W64) :
    freeBuddy w a k = Except.ok (Ptr.addr (a - 2 ^ k)) := by
  have hsub : (a + W64 - 2 ^ k) % W64 = a - 2 ^ k := by
    have : a + W64 - 2 ^ k = (a - 2 ^ k) + W64 := by omega
    rw [this, Nat.add_mod_right]
    exact Nat.mod_eq_of_lt (by omega)
  unfold freeBuddy
  rw [shl1_of_lt (by omega), shl1_of_lt (by omega)]
  simp only [bind, Except.bind, hoff, if_false, hsub]
  rw [ofNat_of_pos (by omega)]

/-- C20 (failing inputs, pool of order 7 with halves of order 6, `buddy_free`
entered on a block header as in its own call at lab.c:146). The increment `k++`
is never stored, so the next call reads the same order 6 again, not 7.
Lower block freed, upper block available: the call unlinks the buddy and calls
itself on the same block for ever. Upper block freed, lower block available: the
call continues on the lower block with order 6, finds the freed block `RESERVED`,
and puts the lower block back on `avail[6]`; nothing reaches `avail[7]` and the
freed block stays `RESERVED`. -/
theorem C20_coalescing_never_raises_order :
    (∀ fuel, buddy_free scen fuel (halfPool 4160 4096) (Ptr.addr 4096) =
        Except.error Stop.spin) ∧
      ∃ w', buddy_free scen 2 (halfPool 4096 4160) (Ptr.addr 4160) = Except.ok w' ∧
        w'.heap (Ptr.addr 4096) = ⟨scen.BLOCK_AVAIL, 6, Ptr.sentinel 6, Ptr.sentinel 6⟩ ∧
        (w'.heap (Ptr.sentinel 6)).next = Ptr.addr 4096 ∧
        (w'.heap (Ptr.sentinel 7)).next = Ptr.sentinel 7 ∧
        (w'.heap (Ptr.addr 4160)).tag = scen.BLOCK_RESERVED := by
  constructor
  · intro fuel
    exact free_lower_spin scen (halfPool 4160 4096) 4096 6 4160 (by decide) rfl rfl
      (freeBuddy_up _ 4096 6 (by decide) (by decide) (by decide))
      ⟨scen.BLOCK_AVAIL, 6, Ptr.sentinel 6, Ptr.sentinel 6⟩ ⟨rfl, rfl⟩ rfl rfl
      (by simp) (by simp) fuel (halfPool 4160 4096).heap rfl rfl
  · have hunl := unlink_eq scen (halfPool 4096 4160) (Ptr.addr 4096) rfl rfl rfl
    have hstep := free_coalesce_step scen 1 (halfPool 4096 4160) _ 4160 6 4096 rfl rfl
      (freeBuddy_down _ 4160 6 (by decide) (by decide) (by decide) (by decide))
      rfl ⟨rfl, rfl⟩ hunl
    rw [if_pos (by decide)] at hstep
    have hfree := free_no_coalesce scen 0
      { halfPool 4096 4160 with heap := unlinkHeap (halfPool 4096 4160).heap (Ptr.addr 4096) }
      4096 6 (Ptr.addr 4160) rfl rfl
      (freeBuddy_up _ 4096 6 (by decide) (by decide) (by decide)) rfl (by decide)
    have hins := insertFree_eq scen
      { halfPool 4096 4160 with heap := unlinkHeap (halfPool 4096 4160).heap (Ptr.addr 4096) }
      4096 6 rfl (by decide) rfl
    refine ⟨_, by rw [hstep, hfree, hins], ?_, ?_, ?_, ?_⟩ <;>
      simp [insertHeap, unlinkHeap, halfPool, emptySentinel, scen]

/-- C18 (failing input: the scenario pool after `buddy_malloc(pool, 992)`, whose
block at `base` has order `kval_m = 10`). `buddy_free` has no test for
`k == kval_m`. Entered on the block header, it computes the buddy address
`base + 2^10 = base + numbytes` and reads the tag there, one header past the end of
the region. Entered with the user pointer `base + 32`, it takes the payload for a
header of order 0, inspects a buddy at `base + 33`, and leaves the block at `base`
`RESERVED` and `avail[10]` empty. -/
theorem C18_whole_pool_free_inspects_a_buddy :
    ∃ wB, buddy_malloc scen 1 true (freshWorld scen 10 4096 0) 992 =
        Except.ok (Ptr.addr 4128, wB) ∧
      (wB.heap (Ptr.addr 4096)).kval = wB.kval_m ∧
      freeBuddy wB 4096 10 = Except.ok (Ptr.addr (wB.base + wB.numbytes)) ∧
      valid scen wB (Ptr.addr (wB.base + wB.numbytes)) = false ∧
      (∀ fuel, buddy_free scen (fuel + 1) wB (Ptr.addr 4096) = Except.error Stop.undef) ∧
      freeBuddy wB 4128 0 = Except.ok (Ptr.addr 4129) ∧
      ∃ w2, buddy_free scen 1 wB (Ptr.addr 4128) = Except.ok w2 ∧
        (w2.heap (Ptr.addr 4096)).tag = scen.BLOCK_RESERVED ∧
        (w2.heap (Ptr.sentinel 10)).next = Ptr.sentinel 10 := by
  have hm := malloc_fresh_full scen (by decide) 0 10 4096 0 992 10 (by decide) (by decide)
    (by decide) (by decide) rfl (by decide) (by decide)
  have hb1 : freeBuddy { freshWorld scen 10 4096 0 with heap := takenHeap scen 10 4096 }
      4096 10 = Except.ok (Ptr.addr (4096 + 2 ^ 10)) :=
    freeBuddy_up _ 4096 10 (by decide) (by decide) (by decide)
  have hb2 : freeBuddy { freshWorld scen 10 4096 0 with heap := takenHeap scen 10 4096 }
      4128 0 = Except.ok (Ptr.addr (4128 + 2 ^ 0)) :=
    freeBuddy_up _ 4128 0 (by decide) (by decide) (by decide)
  have hund : ∀ fuel, buddy_free scen (fuel + 1)
      { freshWorld scen 10 4096 0 with heap := takenHeap scen 10 4096 } (Ptr.addr 4096) =
      Except.error Stop.undef :=
    fun fuel => free_buddy_invalid scen fuel _ 4096 10 _ rfl rfl hb1 rfl
  have hfree := free_no_coalesce scen 0
    { freshWorld scen 10 4096 0 with heap := takenHeap scen 10 4096 } 4128 0 (Ptr.addr 4129)
    rfl rfl hb2 rfl (by decide)
  have hins := insertFree_eq scen
    { freshWorld scen 10 4096 0 with heap := takenHeap scen 10 4096 } 4128 0 rfl
    (by decide) rfl
  refine ⟨_, hm, rfl, hb1, rfl, hund, hb2, _, by rw [hfree, hins], ?_, ?_⟩ <;>
    simp [insertHeap, takenHeap, freshWorld, emptySentinel, scen]

/-- A state whose list `avail[k]` starts with a block at an offset that is not a
multiple of `2^k` does not satisfy the free-list invariant, whatever the lists. -/
theorem not_inv_of_misaligned_head (c : Consts) (w : World) (k a : Nat) (hk : k ≤ w.kval_m)
    (hhead : (w.heap (Ptr.sentinel k)).next = Ptr.addr a)
    (hmis : (a - w.base) % 2 ^ k ≠ 0) : ∀ Ls, ¬ FreeListInv c w Ls := by
  intro Ls h
  obtain ⟨⟨hl, _⟩, hok⟩ := h k hk
  cases hL : Ls k with
  | nil =>
    rw [hL] at hl
    simp only [listFrom] at hl
    rw [hhead] at hl
    exact absurd hl.1 (by simp)
  | cons x L =>
    rw [hL] at hl
    simp only [listFrom] at hl
    rw [hhead] at hl
    have hx : a = x := by simpa using hl.1
    have := (hok x (by rw [hL]; exact List.mem_cons_self x L)).2.2.2
    rw [← hx] at this
    exact hmis this

set_option maxRecDepth 20000 in
/-- C16 (failing call sequence, constants `scen`, pool of 1024 bytes at 4096).
Because `buddy_free` takes the user pointer itself for the block header, what the
client stored in its memory decides where the "block" goes:
`p1 = malloc(992) = base+32`, the client's bytes at `p1` read `kval = 5`,
`free(p1)` puts `base+32` on `avail[5]`; `p2 = malloc(2^64-16) = base+64` (the size
wraps), bytes at `p2` read `kval = 6`, `free(p2)` puts `base+64` on `avail[6]`;
`p3 = malloc(32) = base+96`, bytes at `p3` read `kval = 6`, `free(p3)` puts
`base+96` on `avail[6]`. The head of `avail[6]` is then at offset 96, which is not
a multiple of `2^6`: the free-list invariant fails in this state. -/
theorem C16_misaligned_block_on_free_list :
    ∃ w0 w1 w2 w3 w4 w5 w6 w7 w8 w9,
      buddy_init scen 4096 0 1024 = Except.ok w0 ∧
      buddy_malloc scen 1 true w0 992 = Except.ok (Ptr.addr 4128, w1) ∧
      clientStore scen w1 (Ptr.addr 4128) ⟨0, 5, Ptr.null, Ptr.null⟩ = Except.ok w2 ∧
      buddy_free scen 1 w2 (Ptr.addr 4128) = Except.ok w3 ∧
      buddy_malloc scen 1 true w3 (2 ^ 64 - 16) = Except.ok (Ptr.addr 4160, w4) ∧
      clientStore scen w4 (Ptr.addr 4160) ⟨0, 6, Ptr.null, Ptr.null⟩ = Except.ok w5 ∧
      buddy_free scen 1 w5 (Ptr.addr 4160) = Except.ok w6 ∧
      buddy_malloc scen 1 true w6 32 = Except.ok (Ptr.addr 4192, w7) ∧
      clientStore scen w7 (Ptr.addr 4192) ⟨0, 6, Ptr.null, Ptr.null⟩ = Except.ok w8 ∧
      buddy_free scen 1 w8 (Ptr.addr 4192) = Except.ok w9 ∧
      (w9.heap (Ptr.sentinel 6)).next = Ptr.addr 4192 ∧
      (w9.heap (Ptr.addr 4192)).tag = scen.BLOCK_AVAIL ∧
      (w9.heap (Ptr.addr 4192)).kval = 6 ∧
      (4192 - w9.base) % 2 ^ 6 = 32 ∧
      ∀ Ls, ¬ FreeListInv scen w9 Ls := by
  let W0 : World := freshWorld scen 10 4096 0
  let W1 : World := { W0 with heap := takenHeap scen 10 4096 }
  let W2 : World := { W1 with heap := upd W1.heap (Ptr.addr 4128) ⟨0, 5, Ptr.null, Ptr.null⟩ }
  let W3 : World := { W2 with heap := insertHeap scen W2.heap 4128 5 }
  let W4 : World := { W3 with heap := takeHeap scen W3.heap 4128 }
  let W5 : World := { W4 with heap := upd W4.heap (Ptr.addr 4160) ⟨0, 6, Ptr.null, Ptr.null⟩ }
  let W6 : World := { W5 with heap := insertHeap scen W5.heap 4160 6 }
  let W7 : World := { W6 with heap := takeHeap scen W6.heap 4160 }
  let W8 : World := { W7 with heap := upd W7.heap (Ptr.addr 4192) ⟨0, 6, Ptr.null, Ptr.null⟩ }
  let W9 : World := { W8 with heap := insertHeap scen W8.heap 4192 6 }
  have hwrap : (2 ^ 64 - 16 + scen.hdr) % W64 = 16 := by decide
  have h1 : buddy_malloc scen 1 true W0 992 = Except.ok (Ptr.addr 4128, W1) :=
    malloc_fresh_full scen (by decide) 0 10 4096 0 992 10 (by decide) (by decide)
      (by decide) (by decide) rfl (by decide) (by decide)
  have h2 : clientStore scen W1 (Ptr.addr 4128) ⟨0, 5, Ptr.null, Ptr.null⟩ = Except.ok W2 :=
    @store_ok scen W1 (Ptr.addr 4128) rfl _
  have h3 : buddy_free scen 1 W2 (Ptr.addr 4128) = Except.ok W3 := by
    rw [free_no_coalesce scen 0 W2 4128 5 (Ptr.addr 4096) rfl rfl
      (freeBuddy_down W2 4128 5 (by decide) (by decide) (by decide) (by decide)) rfl
      (by decide), insertFree_eq scen W2 4128 5 rfl (by decide) rfl]
  have h4 : buddy_malloc scen 1 true W3 (2 ^ 64 - 16) = Except.ok (Ptr.addr 4160, W4) :=
    malloc_take scen 0 W3 (2 ^ 64 - 16) 4 4128 (by decide) (by rw [hwrap]; rfl) (by decide)
      (by decide) rfl rfl rfl (by decide) rfl (by decide) (by decide) (by decide)
  have h5 : clientStore scen W4 (Ptr.addr 4160) ⟨0, 6, Ptr.null, Ptr.null⟩ = Except.ok W5 :=
    @store_ok scen W4 (Ptr.addr 4160) rfl _
  have h6 : buddy_free scen 1 W5 (Ptr.addr 4160) = Except.ok W6 := by
    rw [free_no_coalesce scen 0 W5 4160 6 (Ptr.addr 4096) rfl rfl
      (freeBuddy_down W5 4160 6 (by decide) (by decide) (by decide) (by decide)) rfl
      (by decide), insertFree_eq scen W5 4160 6 rfl (by decide) rfl]
  have h7 : buddy_malloc scen 1 true W6 32 = Except.ok (Ptr.addr 4192, W7) :=
    malloc_take scen 0 W6 32 6 4160 (by decide) rfl (by decide)
      (by decide) rfl rfl rfl (by decide) rfl (by decide) (by decide) (by decide)
  have h8 : clientStore scen W7 (Ptr.addr 4192) ⟨0, 6, Ptr.null, Ptr.null⟩ = Except.ok W8 :=
    @store_ok scen W7 (Ptr.addr 4192) rfl _
  have h9 : buddy_free scen 1 W8 (Ptr.addr 4192) = Except.ok W9 := by
    rw [free_no_coalesce scen 0 W8 4192 6 (Ptr.addr 4128) rfl rfl
      (freeBuddy_down W8 4192 6 (by decide) (by decide) (by decide) (by decide)) rfl
      (by decide), insertFree_eq scen W8 4192 6 rfl (by decide) rfl]
  have hhead : (W9.heap (Ptr.sentinel 6)).next = Ptr.addr 4192 := rfl
  exact ⟨W0, W1, W2, W3, W4, W5, W6, W7, W8, W9, scen_init_1024, h1, h2, h3, h4, h5, h6, h7,
    h8, h9, hhead, rfl, rfl, by decide,
    not_inv_of_misaligned_head scen W9 6 4192 (by decide) hhead (by decide)⟩

/-! ## What a returning call has done -/

end Buddy
